import Mathlib

/-!
Kafka message codec of the file protocol/message.go: a shallow embedding of
`Message.Encode` and `Message.Decode`.

The record codec is written against two interfaces of the `encoding` package,
`PacketEncoder` and `PacketDecoder`, and against `compress/gzip`.  Neither the
`encoding` package nor gzip is part of the sources at hand, so

* the two interfaces are records of operations, and `Encode` / `Decode` are
  generic in them, exactly as the Go code is;
* `realEncoder` / `realDecoder` are the implementations described in the
  specification (sections 4 and 6): fixed-width big-endian integers,
  length-prefixed nullable byte fields, and a CRC-32 region;
* gzip is a parameter (`GzipLib`).
-/

namespace Sarama

/-- A byte of the wire. -/
abbrev Byte := Fin 256

/-- The byte with value `n mod 256`. -/
def toByte (n : Nat) : Byte := ⟨n % 256, Nat.mod_lt n (by decide)⟩

/-- Errors.  `DecodingError` is the single value `enc.DecodingError` that
`message.go` returns itself; the other values come out of the collaborators
(encoder, decoder, gzip) and are only propagated by `message.go`. -/
inductive Error where
  /-- The value `enc.DecodingError` of the source. -/
  | DecodingError
  /-- A primitive read ran out of input. -/
  | TruncatedInput
  /-- A primitive write ran out of room. -/
  | BufferExhausted
  /-- The region close found a checksum different from the stored one. -/
  | ChecksumMismatch
  /-- An error of the gzip reader. -/
  | Gzip (code : Nat)
  deriving DecidableEq

/-- The type `CompressionCodec`, an `int8`. -/
abbrev CompressionCodec := Int

def COMPRESSION_NONE : CompressionCodec := 0
def COMPRESSION_GZIP : CompressionCodec := 1
def COMPRESSION_SNAPPY : CompressionCodec := 2

/-- The constant `const message_format int8 = 0`. -/
def message_format : Int := 0

/-- The record.  A Go `[]byte` that may be nil is an `Option (List Byte)`:
`none` is nil, `some []` is the empty non-nil slice. -/
structure Message where
  Codec : CompressionCodec
  Key : Option (List Byte)
  Value : Option (List Byte)
  deriving DecidableEq

/-- The part of `compress/gzip` (and `ioutil.ReadAll`) used by the codec.
`compress` is `NewWriter`, `Write`, `Close` and `buf.Bytes()`; `NewReader`
reads the header and either fails or gives a reader (modelled by the stream it
reads); `ReadAll` returns the bytes read so far and possibly an error. -/
structure GzipLib where
  compress : List Byte → List Byte
  NewReader : List Byte → Except Error (List Byte)
  ReadAll : List Byte → List Byte × Option Error

/-- The interface `enc.PacketEncoder`, as far as `Message.Encode` uses it.
`Push` is `Push(&enc.CRC32Field{})`. -/
structure PacketEncoder (σ : Type) where
  PutInt8 : σ → Int → σ
  PutBytes : σ → Option (List Byte) → σ × Option Error
  Push : σ → σ
  Pop : σ → σ × Option Error

/-- The interface `enc.PacketDecoder`, as far as `Message.Decode` uses it.
`Push` is `Push(&enc.CRC32Field{})`.  `GetInt8` and `GetBytes` return a value
and an error, as in Go. -/
structure PacketDecoder (δ : Type) where
  GetInt8 : δ → δ × Int × Option Error
  GetBytes : δ → δ × Option (List Byte) × Option Error
  Push : δ → δ × Option Error
  Pop : δ → δ × Option Error

/-- The wire value chosen by the `switch m.Codec` of `Encode` (lines 45-59):
`body` starts nil; the Snappy case is empty and there is no default. -/
def encodeBody (gz : GzipLib) (m : Message) : Option (List Byte) :=
  if m.Codec = COMPRESSION_NONE then m.Value
  else if m.Codec = COMPRESSION_GZIP then
    match m.Value with
    | some v => some (gz.compress v)
    | none => none
  else if m.Codec = COMPRESSION_SNAPPY then none
  else none

/-- The method `func (m *Message) Encode(pe enc.PacketEncoder) error`.  The result is the
encoder after the call and the returned error (`none` is Go's nil). -/
def Message.Encode {σ : Type} (E : PacketEncoder σ) (gz : GzipLib) (m : Message) (pe : σ) :
    σ × Option Error :=
  let pe := E.Push pe
  let pe := E.PutInt8 pe message_format
  let attributes : Int := Int.lor 0 (Int.land m.Codec 0x07)
  let pe := E.PutInt8 pe attributes
  match E.PutBytes pe m.Key with
  | (pe, some err) => (pe, some err)
  | (pe, none) =>
    match E.PutBytes pe (encodeBody gz m) with
    | (pe, some err) => (pe, some err)
    | (pe, none) => E.Pop pe

/-- Lines 119-124 of `Decode`: `err = pd.Pop()`, return it or nil. -/
def decodeFinish {δ : Type} (D : PacketDecoder δ) (m : Message) (pd : δ) :
    Message × δ × Option Error :=
  match D.Pop pd with
  | (pd, some err) => (m, pd, some err)
  | (pd, none) => (m, pd, none)

/-- Lines 98-124 of `Decode`: the `switch m.Codec` and the region close. -/
def decodeSwitch {δ : Type} (D : PacketDecoder δ) (gz : GzipLib) (m : Message) (pd : δ) :
    Message × δ × Option Error :=
  if m.Codec = COMPRESSION_NONE then decodeFinish D m pd
  else if m.Codec = COMPRESSION_GZIP then
    match m.Value with
    | none => (m, pd, some Error.DecodingError)
    | some w =>
      match gz.NewReader w with
      | .error err => (m, pd, some err)
      | .ok reader =>
        match gz.ReadAll reader with
        | (out, some err) => ({ m with Value := some out }, pd, some err)
        | (out, none) => decodeFinish D { m with Value := some out } pd
  else if m.Codec = COMPRESSION_SNAPPY then decodeFinish D m pd
  else (m, pd, some Error.DecodingError)

/-- The method `func (m *Message) Decode(pd enc.PacketDecoder) (err error)`.  The receiver
is updated in place by the Go code, so the result carries the message after the
call, next to the decoder after the call and the returned error. -/
def Message.Decode {δ : Type} (D : PacketDecoder δ) (gz : GzipLib) (m : Message) (pd : δ) :
    Message × δ × Option Error :=
  match D.Push pd with
  | (pd, some err) => (m, pd, some err)
  | (pd, none) =>
    match D.GetInt8 pd with
    | (pd, _, some err) => (m, pd, some err)
    | (pd, format, none) =>
      if format ≠ message_format then (m, pd, some Error.DecodingError)
      else
        match D.GetInt8 pd with
        | (pd, _, some err) => (m, pd, some err)
        | (pd, attr, none) =>
          let m := { m with Codec := Int.land attr 0x07 }
          match D.GetBytes pd with
          | (pd, key, some err) => ({ m with Key := key }, pd, some err)
          | (pd, key, none) =>
            let m := { m with Key := key }
            match D.GetBytes pd with
            | (pd, value, some err) => ({ m with Value := value }, pd, some err)
            | (pd, value, none) => decodeSwitch D gz { m with Value := value } pd

/-! ## The encoding context of the specification -/

/-- Modelled from the spec: the CRC-32 of the checksum field (`enc.CRC32Field`
is not in the sources).  One bit of the reflected CRC-32 register. -/
def crcStep (c : Nat) : Nat :=
  if c % 2 = 1 then (c / 2) ^^^ 0xEDB88320 else c / 2

/-- Modelled from the spec: CRC-32, one input byte. -/
def crcByte (c : Nat) (b : Byte) : Nat :=
  crcStep (crcStep (crcStep (crcStep (crcStep (crcStep (crcStep (crcStep (c ^^^ b.val))))))))

/-- Modelled from the spec: "CRC-32 over all following fields of this
message" (`enc.CRC32Field` is not in the sources): the standard CRC-32,
register preset to all ones, reflected polynomial `0xEDB88320`, final
complement. -/
def crc32 (bs : List Byte) : Nat :=
  (bs.foldl crcByte 0xFFFFFFFF) ^^^ 0xFFFFFFFF

/-- Four bytes, big-endian, of `n mod 2^32`. -/
def be32 (n : Nat) : List Byte :=
  [toByte (n / 2 ^ 24), toByte (n / 2 ^ 16), toByte (n / 2 ^ 8), toByte n]

/-- The value of four big-endian bytes. -/
def fromBE32 (b0 b1 b2 b3 : Byte) : Nat :=
  b0.val * 2 ^ 24 + b1.val * 2 ^ 16 + b2.val * 2 ^ 8 + b3.val

/-- The largest length a 4-byte signed length can hold. -/
def maxInt32 : Nat := 2 ^ 31 - 1

/-- Modelled from the spec: the length-prefixed nullable byte field of
section 6 (`PutBytes` is not in the sources): a 4-byte big-endian signed
length, `-1` for nil, followed by the bytes. -/
def field (x : Option (List Byte)) : List Byte :=
  match x with
  | none => be32 (2 ^ 32 - 1)
  | some l => be32 l.length ++ l

/-- The number of bytes of a nullable slice, nil counted as 0. -/
def blen (x : Option (List Byte)) : Nat :=
  match x with
  | none => 0
  | some l => l.length

/-- Modelled from the spec: the state of an encoder (the `encoding` package
is not in the sources): the bytes written so far, the capacity of the output,
and the offsets of the reserved slots of the open regions. -/
structure EncoderState where
  buf : List Byte
  cap : Nat
  stack : List Nat
  deriving DecidableEq

/-- Modelled from the spec: `PutInt8` (not in the sources) writes one byte,
the two's complement of the value. -/
def encPutInt8 (s : EncoderState) (v : Int) : EncoderState :=
  { s with buf := s.buf ++ [toByte (v % 256).toNat] }

/-- Modelled from the spec: `PutBytes` (not in the sources) writes the
length-prefixed field; it fails with `BufferExhausted`, writing nothing, when
the length does not fit the signed 4-byte prefix or the field does not fit the
remaining capacity. -/
def encPutBytes (s : EncoderState) (x : Option (List Byte)) : EncoderState × Option Error :=
  if blen x ≤ maxInt32 ∧ s.buf.length + 4 + blen x ≤ s.cap then
    ({ s with buf := s.buf ++ field x }, none)
  else (s, some Error.BufferExhausted)

/-- Modelled from the spec: `Push(&CRC32Field{})` on the encoder (not in the
sources) reserves the 4 bytes of the checksum and remembers where. -/
def encPush (s : EncoderState) : EncoderState :=
  { s with buf := s.buf ++ [0, 0, 0, 0], stack := s.buf.length :: s.stack }

/-- Modelled from the spec: `Pop` on the encoder (not in the sources) computes
the CRC-32 of everything written after the reserved slot and backfills the
slot.  Without an open region it does nothing. -/
def encPop (s : EncoderState) : EncoderState × Option Error :=
  match s.stack with
  | [] => (s, none)
  | off :: rest =>
    ({ s with
        buf := s.buf.take off ++ be32 (crc32 (s.buf.drop (off + 4))) ++ s.buf.drop (off + 4),
        stack := rest }, none)

/-- Modelled from the spec: the encoder of section 6. -/
def realEncoder : PacketEncoder EncoderState where
  PutInt8 := encPutInt8
  PutBytes := encPutBytes
  Push := encPush
  Pop := encPop

/-- A fresh encoder with the given capacity. -/
def newEncoder (cap : Nat) : EncoderState := { buf := [], cap := cap, stack := [] }

/-- Modelled from the spec: the state of a decoder (the `encoding` package
is not in the sources): the input not read yet, and for every open region the
stored checksum and the bytes read since the region was opened. -/
structure DecoderState where
  rest : List Byte
  regions : List (Nat × List Byte)
  deriving DecidableEq

/-- Every open region tracks the bytes that are read. -/
def track (regions : List (Nat × List Byte)) (bs : List Byte) : List (Nat × List Byte) :=
  regions.map fun r => (r.1, r.2 ++ bs)

/-- The signed value of a byte read as `int8`. -/
def toInt8 (b : Byte) : Int :=
  if b.val < 128 then (b.val : Int) else (b.val : Int) - 256

/-- The signed value of a 32-bit word read as `int32`. -/
def toInt32 (n : Nat) : Int :=
  if n < 2 ^ 31 then (n : Int) else (n : Int) - 2 ^ 32

/-- Modelled from the spec: `GetInt8` (not in the sources) reads one byte as
a signed integer, or fails with `TruncatedInput`. -/
def decGetInt8 (s : DecoderState) : DecoderState × Int × Option Error :=
  match s.rest with
  | [] => (s, 0, some Error.TruncatedInput)
  | b :: r => ({ rest := r, regions := track s.regions [b] }, toInt8 b, none)

/-- Modelled from the spec: `GetBytes` (not in the sources) reads a nullable
length-prefixed field: length `-1` is nil, a length below `-1` violates the
format (`DecodingError`), and a length beyond the input left is
`TruncatedInput`.  On an error nothing is consumed and the value is nil. -/
def decGetBytes (s : DecoderState) : DecoderState × Option (List Byte) × Option Error :=
  match s.rest with
  | b0 :: b1 :: b2 :: b3 :: r =>
    let n := toInt32 (fromBE32 b0 b1 b2 b3)
    if n = -1 then
      ({ rest := r, regions := track s.regions [b0, b1, b2, b3] }, none, none)
    else if n < -1 then (s, none, some Error.DecodingError)
    else if r.length < n.toNat then (s, none, some Error.TruncatedInput)
    else
      ({ rest := r.drop n.toNat,
         regions := track s.regions ([b0, b1, b2, b3] ++ r.take n.toNat) },
       some (r.take n.toNat), none)
  | _ => (s, none, some Error.TruncatedInput)

/-- Modelled from the spec: `Push(&CRC32Field{})` on the decoder (not in the
sources) reads the stored checksum and starts tracking the bytes read. -/
def decPush (s : DecoderState) : DecoderState × Option Error :=
  match s.rest with
  | b0 :: b1 :: b2 :: b3 :: r =>
    ({ rest := r, regions := (fromBE32 b0 b1 b2 b3, []) :: track s.regions [b0, b1, b2, b3] },
     none)
  | _ => (s, some Error.TruncatedInput)

/-- Modelled from the spec: `Pop` on the decoder (not in the sources)
recomputes the CRC-32 over the bytes read in the region and compares it with
the stored value; a difference is `ChecksumMismatch`.  Without an open region
it does nothing. -/
def decPop (s : DecoderState) : DecoderState × Option Error :=
  match s.regions with
  | [] => (s, none)
  | (stored, seen) :: rs =>
    if crc32 seen = stored then ({ s with regions := rs }, none)
    else ({ s with regions := rs }, some Error.ChecksumMismatch)

/-- Modelled from the spec: the decoder of section 6. -/
def realDecoder : PacketDecoder DecoderState where
  GetInt8 := decGetInt8
  GetBytes := decGetBytes
  Push := decPush
  Pop := decPop

/-- A fresh decoder over the given input. -/
def newDecoder (input : List Byte) : DecoderState := { rest := input, regions := [] }

/-- A message value for a receiver whose fields do not matter. -/
def emptyMessage : Message := { Codec := 0, Key := none, Value := none }


/-- The attribute byte written by `Encode` for a codec. -/
def attrByte (c : CompressionCodec) : Byte := toByte ((Int.lor 0 (Int.land c 0x07)) % 256).toNat

/-- The bytes `Encode` writes between the checksum slot and the region close. -/
def frameBody (gz : GzipLib) (m : Message) : List Byte :=
  [toByte (message_format % 256).toNat, attrByte m.Codec] ++ field m.Key
    ++ field (encodeBody gz m)

/-- The bytes an `Encode` has appended to an encoder that held `before`. -/
def written (before after : EncoderState) : List Byte := after.buf.drop before.buf.length

/-- The wire value in the words of the specification (section 4.1, step 6):
the value itself without compression, the gzip stream of a non-nil value with
gzip, nil for a nil value with gzip. -/
def specWireValue (gz : GzipLib) (r : Message) : Option (List Byte) :=
  if r.Codec = COMPRESSION_NONE then r.Value
  else
    match r.Value with
    | some v => some (gz.compress v)
    | none => none

/-- The framed bytes in the words of the specification (section 6): format
version 0, the codec, the key field, the value field. -/
def specFrame (gz : GzipLib) (r : Message) : List Byte :=
  [0x00] ++ [toByte r.Codec.toNat] ++ field r.Key ++ field (specWireValue gz r)

/-- A stand-in for gzip on which the statements that are parametric in gzip
can be evaluated: the stream is the two magic bytes followed by the payload. -/
def toyGzip : GzipLib where
  compress := fun l => 31 :: 139 :: l
  NewReader := fun l =>
    match l with
    | 31 :: 139 :: r => .ok r
    | _ => .error (Error.Gzip 0)
  ReadAll := fun l => (l, none)

/-- One byte with bit `j` flipped. -/
def flipByte (b : Byte) (j : Nat) : Byte := toByte (b.val ^^^ 2 ^ j)

/-- Flip bit `j` of the byte at index `n`. -/
def flipAt : List Byte → Nat → Nat → List Byte
  | [], _, _ => []
  | b :: bs, 0, j => flipByte b j :: bs
  | b :: bs, n + 1, j => b :: flipAt bs n j

/-- Flip the bit at bit position `i` of a byte sequence (bit `i % 8` of byte
`i / 8`). -/
def flipBit (bs : List Byte) (i : Nat) : List Byte := flipAt bs (i / 8) (i % 8)

/-- The attribute byte and the wire value get past the `switch m.Codec` of
`Decode`: the codec bits are 0 or 2, or they are 1 and the wire value is a
stream that the gzip reader accepts and reads to its end. -/
def passesSwitch (gz : GzipLib) (a : Byte) (w : Option (List Byte)) : Prop :=
  a.val % 8 = 0 ∨ a.val % 8 = 2 ∨
    (a.val % 8 = 1 ∧ ∃ x rd out, w = some x ∧ gz.NewReader x = .ok rd ∧
      gz.ReadAll rd = (out, none))

/-- Bit position `i` of an encoded record with codec NONE lies in one of the
reserved bits 3-7 of the attribute byte (byte 5), in a key byte (from byte 10)
or in a value byte (from byte `14 + len(Key)`). -/
def inPayload (r : Message) (i : Nat) : Prop :=
  (i / 8 = 5 ∧ 3 ≤ i % 8) ∨ (10 ≤ i / 8 ∧ i / 8 < 10 + blen r.Key) ∨ 14 + blen r.Key ≤ i / 8

/-- A wire value after the bit at position `i` of the message that carries it
behind a key of `keyLen` bytes is flipped: the wire value with that bit flipped
when the position lies in the value bytes (from byte `14 + keyLen`), the wire
value itself when it lies before them. -/
def flipWireAt (w : Option (List Byte)) (keyLen i : Nat) : Option (List Byte) :=
  if 14 + keyLen ≤ i / 8 then
    match w with
    | some l => some (flipAt l (i / 8 - 14 - keyLen) (i % 8))
    | none => none
  else w

/-- The wire value of an encoded record after the bit at position `i` of the
output is flipped. -/
def flippedWire (gz : GzipLib) (r : Message) (i : Nat) : Option (List Byte) :=
  flipWireAt (encodeBody gz r) (blen r.Key) i

/-- The attribute byte of an encoded record after the bit at position `i` of
the output is flipped: with that bit flipped when the position lies in the
attribute byte (byte 5), the attribute byte itself otherwise. -/
def flippedAttr (r : Message) (i : Nat) : Byte :=
  if i / 8 = 5 then flipByte (attrByte r.Codec) (i % 8) else attrByte r.Codec

/-- Bit position `i` of an encoded record lies in the attribute byte (byte 5),
in a key byte (from byte 10) or in a value byte (from byte `14 + len(Key)`):
anywhere in the framed region but in the format byte and the two length
prefixes. -/
def inFields (r : Message) (i : Nat) : Prop :=
  i / 8 = 5 ∨ (10 ≤ i / 8 ∧ i / 8 < 10 + blen r.Key) ∨ 14 + blen r.Key ≤ i / 8

/-- The gzip library reports its own errors: none of them is the
`ChecksumMismatch` of the region close. -/
def gzipErrorsOwn (gz : GzipLib) : Prop :=
  (∀ x, gz.NewReader x ≠ .error Error.ChecksumMismatch) ∧
    ∀ rd, (gz.ReadAll rd).2 ≠ some Error.ChecksumMismatch

/-- The variables of one call of `Encode`: the receiver `m`, the local
variable `body`, and the encoder. -/
structure EncodeVars (σ : Type) where
  m : Message
  body : Option (List Byte)
  pe : σ

/-- The method `Encode` once more, statement by statement on its variables,
with the receiver `*m` carried along as state (the way `Decode` carries it):
`var body []byte` starts nil and is the only variable the `switch` assigns.
The result is the variables when the method returns, and the returned error. -/
def Message.EncodeRcv {σ : Type} (E : PacketEncoder σ) (gz : GzipLib) (m : Message) (pe : σ) :
    EncodeVars σ × Option Error :=
  let st : EncodeVars σ := { m := m, body := none, pe := pe }
  let st := { st with pe := E.Push st.pe }
  let st := { st with pe := E.PutInt8 st.pe message_format }
  let attributes : Int := Int.lor 0 (Int.land st.m.Codec 0x07)
  let st := { st with pe := E.PutInt8 st.pe attributes }
  match E.PutBytes st.pe st.m.Key with
  | (pe, some err) => ({ st with pe := pe }, some err)
  | (pe, none) =>
    let st := { st with pe := pe }
    let st :=
      if st.m.Codec = COMPRESSION_NONE then { st with body := st.m.Value }
      else if st.m.Codec = COMPRESSION_GZIP then
        match st.m.Value with
        | some v => { st with body := some (gz.compress v) }
        | none => st
      else if st.m.Codec = COMPRESSION_SNAPPY then st
      else st
    match E.PutBytes st.pe st.body with
    | (pe, some err) => ({ st with pe := pe }, some err)
    | (pe, none) => ({ st with pe := (E.Pop pe).1 }, (E.Pop pe).2)

/-! ## Bytes and words -/

theorem fromBE32_be32 (n : Nat) :
    fromBE32 (toByte (n / 2 ^ 24)) (toByte (n / 2 ^ 16)) (toByte (n / 2 ^ 8)) (toByte n)
      = n % 2 ^ 32 := by
  simp only [fromBE32, toByte]
  omega

theorem be32_fromBE32 (b0 b1 b2 b3 : Byte) : be32 (fromBE32 b0 b1 b2 b3) = [b0, b1, b2, b3] := by
  have h0 := b0.isLt
  have h1 := b1.isLt
  have h2 := b2.isLt
  have h3 := b3.isLt
  simp only [be32, fromBE32, toByte]
  congr 1
  · apply Fin.ext; simp only; omega
  congr 1
  · apply Fin.ext; simp only; omega
  congr 1
  · apply Fin.ext; simp only; omega
  congr 1
  · apply Fin.ext; simp only; omega

theorem blen_none : blen none = 0 := rfl

theorem blen_some (l : List Byte) : blen (some l) = l.length := rfl

theorem be32_length (n : Nat) : (be32 n).length = 4 := rfl

theorem field_length (x : Option (List Byte)) : (field x).length = 4 + blen x := by
  cases x with
  | none => rfl
  | some l => simp [field, blen, be32_length]

theorem track_nil (bs : List Byte) : track [] bs = [] := rfl

/-! ## The encoder -/

theorem encPop_after (pre body : List Byte) (cap : Nat) (st : List Nat) :
    encPop { buf := pre ++ [0, 0, 0, 0] ++ body, cap := cap, stack := pre.length :: st }
      = ({ buf := pre ++ be32 (crc32 body) ++ body, cap := cap, stack := st }, none) := by
  simp [encPop, List.append_assoc]


/-- Unfolding of `Encode` on the encoder of section 6, unfolded into its two writes. -/
theorem Encode_real (gz : GzipLib) (m : Message) (s : EncoderState) :
    Message.Encode realEncoder gz m s =
      if blen m.Key ≤ maxInt32 ∧ s.buf.length + 10 + blen m.Key ≤ s.cap then
        if blen (encodeBody gz m) ≤ maxInt32 ∧
            s.buf.length + 14 + blen m.Key + blen (encodeBody gz m) ≤ s.cap then
          ({ buf := s.buf ++ be32 (crc32 (frameBody gz m)) ++ frameBody gz m,
             cap := s.cap, stack := s.stack }, none)
        else
          ({ buf := s.buf ++ [0, 0, 0, 0] ++ [toByte (message_format % 256).toNat,
                attrByte m.Codec] ++ field m.Key,
             cap := s.cap, stack := s.buf.length :: s.stack }, some Error.BufferExhausted)
      else
        ({ buf := s.buf ++ [0, 0, 0, 0] ++ [toByte (message_format % 256).toNat,
              attrByte m.Codec],
           cap := s.cap, stack := s.buf.length :: s.stack }, some Error.BufferExhausted) := by
  have e := encPop_after s.buf (frameBody gz m) s.cap s.stack
  by_cases h1 : blen m.Key ≤ maxInt32 ∧ s.buf.length + 10 + blen m.Key ≤ s.cap
  · have h1' : blen m.Key ≤ maxInt32 ∧ s.buf.length + 4 + 1 + 1 + 4 + blen m.Key ≤ s.cap :=
      ⟨h1.1, by omega⟩
    by_cases h2 : blen (encodeBody gz m) ≤ maxInt32 ∧
        s.buf.length + 14 + blen m.Key + blen (encodeBody gz m) ≤ s.cap
    · have h2' : blen (encodeBody gz m) ≤ maxInt32 ∧
          s.buf.length + 4 + 1 + 1 + (4 + blen m.Key) + 4 + blen (encodeBody gz m) ≤ s.cap :=
        ⟨h2.1, by omega⟩
      simp only [Message.Encode, realEncoder, encPush, encPutInt8, encPutBytes,
        List.length_append, List.length_cons, List.length_nil, field_length, Nat.zero_add,
        if_pos h1, if_pos h1', if_pos h2, if_pos h2']
      simpa [frameBody, attrByte, List.append_assoc] using e
    · have h2' : ¬ (blen (encodeBody gz m) ≤ maxInt32 ∧
          s.buf.length + 4 + 1 + 1 + (4 + blen m.Key) + 4 + blen (encodeBody gz m) ≤ s.cap) :=
        fun h => h2 ⟨h.1, by omega⟩
      simp only [Message.Encode, realEncoder, encPush, encPutInt8, encPutBytes,
        List.length_append, List.length_cons, List.length_nil, field_length, Nat.zero_add,
        if_pos h1, if_pos h1', if_neg h2, if_neg h2']
      simp [attrByte, List.append_assoc]
  · have h1' : ¬ (blen m.Key ≤ maxInt32 ∧ s.buf.length + 4 + 1 + 1 + 4 + blen m.Key ≤ s.cap) :=
      fun h => h1 ⟨h.1, by omega⟩
    simp only [Message.Encode, realEncoder, encPush, encPutInt8, encPutBytes,
      List.length_append, List.length_cons, List.length_nil, field_length, Nat.zero_add,
      if_neg h1, if_neg h1']
    simp [attrByte, List.append_assoc]


/-! ## The decoder -/

theorem toInt8_eq_zero (b : Byte) : toInt8 b = 0 ↔ b = 0 := by
  have hb := b.isLt
  unfold toInt8
  constructor
  · intro h
    apply Fin.ext
    split at h <;> simp only [Fin.val_zero] <;> omega
  · intro h
    subst h
    rfl

theorem toInt32_length (n : Nat) (h : n ≤ maxInt32) : toInt32 (n % 2 ^ 32) = (n : Int) := by
  have h' : n < 2 ^ 31 := by unfold maxInt32 at h; omega
  have e : n % 2 ^ 32 = n := Nat.mod_eq_of_lt (by omega)
  rw [e, toInt32, if_pos h']

theorem decGetBytes_none (t : List Byte) (rs : List (Nat × List Byte)) :
    decGetBytes { rest := field none ++ t, regions := rs }
      = ({ rest := t, regions := track rs (field none) }, none, none) := by
  have e : toInt32 (fromBE32 (toByte ((2 ^ 32 - 1) / 2 ^ 24)) (toByte ((2 ^ 32 - 1) / 2 ^ 16))
      (toByte ((2 ^ 32 - 1) / 2 ^ 8)) (toByte (2 ^ 32 - 1))) = -1 := by
    rw [fromBE32_be32]; decide
  simp only [field, be32, List.cons_append, List.nil_append, decGetBytes, e, if_true]

theorem decGetBytes_some (l t : List Byte) (rs : List (Nat × List Byte))
    (h : l.length ≤ maxInt32) :
    decGetBytes { rest := field (some l) ++ t, regions := rs }
      = ({ rest := t, regions := track rs (field (some l)) }, some l, none) := by
  have e : toInt32 (fromBE32 (toByte (l.length / 2 ^ 24)) (toByte (l.length / 2 ^ 16))
      (toByte (l.length / 2 ^ 8)) (toByte l.length)) = (l.length : Int) := by
    rw [fromBE32_be32]; exact toInt32_length _ h
  have n1 : ¬ ((l.length : Int) = -1) := by omega
  have n2 : ¬ ((l.length : Int) < -1) := by omega
  simp only [field, be32, List.cons_append, List.nil_append, decGetBytes, e, if_neg n1,
    if_neg n2, Int.toNat_ofNat, List.length_append, List.take_left', List.drop_left']
  simp

/-- Reading back a field that `PutBytes` can write. -/
theorem decGetBytes_field (x : Option (List Byte)) (t : List Byte)
    (rs : List (Nat × List Byte)) (h : blen x ≤ maxInt32) :
    decGetBytes { rest := field x ++ t, regions := rs }
      = ({ rest := t, regions := track rs (field x) }, x, none) := by
  cases x with
  | none => exact decGetBytes_none t rs
  | some l => exact decGetBytes_some l t rs h


theorem toInt32_nonneg (v : Nat) (hv : v < 2 ^ 32) (h1 : ¬ toInt32 v = -1) (h2 : ¬ toInt32 v < -1) :
    v < 2 ^ 31 ∧ toInt32 v = (v : Int) := by
  by_cases h : v < 2 ^ 31
  · exact ⟨h, by rw [toInt32, if_pos h]⟩
  · exfalso
    rw [toInt32, if_neg h] at h1 h2
    omega

theorem fromBE32_lt (b0 b1 b2 b3 : Byte) : fromBE32 b0 b1 b2 b3 < 2 ^ 32 := by
  have h0 := b0.isLt
  have h1 := b1.isLt
  have h2 := b2.isLt
  have h3 := b3.isLt
  unfold fromBE32
  omega

theorem toInt32_neg_one (v : Nat) (hv : v < 2 ^ 32) (h : toInt32 v = -1) : v = 2 ^ 32 - 1 := by
  unfold toInt32 at h
  split at h <;> omega

/-- What a successful `GetBytes` has read. -/
theorem decGetBytes_ok (s s' : DecoderState) (x : Option (List Byte))
    (h : decGetBytes s = (s', x, none)) :
    s.rest = field x ++ s'.rest ∧ s'.regions = track s.regions (field x) ∧ blen x ≤ maxInt32 := by
  unfold decGetBytes at h
  split at h
  · rename_i b0 b1 b2 b3 r hr
    simp only at h
    have hlt := fromBE32_lt b0 b1 b2 b3
    split at h
    · rename_i hn
      have hv := toInt32_neg_one _ hlt hn
      simp only [Prod.mk.injEq] at h
      obtain ⟨hs, hx, -⟩ := h
      subst hs; subst hx
      have hb := be32_fromBE32 b0 b1 b2 b3
      rw [hv] at hb
      simp only [field, hb, hr, blen]
      simp
    · rename_i hn1
      split at h
      · simp at h
      · rename_i hn2
        split at h
        · simp at h
        · rename_i hlen
          obtain ⟨hv31, hv⟩ := toInt32_nonneg _ hlt hn1 hn2
          simp only [Prod.mk.injEq] at h
          obtain ⟨hs, hx, -⟩ := h
          subst hs; subst hx
          rw [hv, Int.toNat_ofNat] at hlen ⊢
          have hlen' : fromBE32 b0 b1 b2 b3 ≤ r.length := by omega
          have htl : (List.take (fromBE32 b0 b1 b2 b3) r).length = fromBE32 b0 b1 b2 b3 :=
            List.length_take_of_le hlen'
          simp only [field, htl, be32_fromBE32, hr, blen]
          refine ⟨by simp, by simp, ?_⟩
          unfold maxInt32
          omega
  · simp at h


/-- Running `Decode` on an input whose format byte is 0 and whose two fields are
readable arrives at the `switch m.Codec` with the fields stored in the
receiver and the region tracking exactly the bytes after the checksum. -/
theorem Decode_fields (gz : GzipLib) (m : Message) (c0 c1 c2 c3 a : Byte)
    (k w : Option (List Byte)) (t : List Byte)
    (hk : blen k ≤ maxInt32) (hw : blen w ≤ maxInt32) :
    Message.Decode realDecoder gz m
        (newDecoder (c0 :: c1 :: c2 :: c3 :: 0 :: a :: (field k ++ (field w ++ t))))
      = decodeSwitch realDecoder gz { Codec := Int.land (toInt8 a) 0x07, Key := k, Value := w }
          { rest := t, regions := [(fromBE32 c0 c1 c2 c3, 0 :: a :: (field k ++ field w))] } := by
  have z : toInt8 (0 : Byte) = message_format := rfl
  simp only [Message.Decode, realDecoder, newDecoder, decPush, decGetInt8, track, List.map_nil,
    List.map_cons, List.nil_append, List.cons_append, z, ne_eq, not_true_eq_false, if_false]
  rw [decGetBytes_field k _ _ hk]
  simp only [track, List.map_nil, List.map_cons, List.cons_append, List.nil_append]
  rw [decGetBytes_field w _ _ hw]
  simp only [track, List.map_nil, List.map_cons, List.cons_append, List.nil_append,
    List.append_assoc]

/-- The format guard: a format byte other than 0 ends `Decode` with
`DecodingError`, the receiver untouched. -/
theorem Decode_format (gz : GzipLib) (m : Message) (c0 c1 c2 c3 f : Byte) (r : List Byte)
    (hf : f ≠ 0) :
    Message.Decode realDecoder gz m (newDecoder (c0 :: c1 :: c2 :: c3 :: f :: r))
      = (m, { rest := r, regions := [(fromBE32 c0 c1 c2 c3, [f])] },
          some Error.DecodingError) := by
  have z : toInt8 f ≠ message_format := fun h => hf ((toInt8_eq_zero f).1 h)
  simp only [Message.Decode, realDecoder, newDecoder, decPush, decGetInt8, track, List.map_nil,
    List.map_cons, List.nil_append, List.cons_append, ne_eq, z, not_false_eq_true, if_true]

/-- A `Decode` that returns nil has read a checksum, a format byte 0, an
attribute byte and two well-formed fields. -/
theorem Decode_ok_shape (gz : GzipLib) (m : Message) (input : List Byte)
    (h : (Message.Decode realDecoder gz m (newDecoder input)).2.2 = none) :
    ∃ (c0 c1 c2 c3 a : Byte) (k w : Option (List Byte)) (t : List Byte),
      input = c0 :: c1 :: c2 :: c3 :: 0 :: a :: (field k ++ (field w ++ t)) ∧
      blen k ≤ maxInt32 ∧ blen w ≤ maxInt32 := by
  match input, h with
  | [], h => simp [Message.Decode, realDecoder, newDecoder, decPush] at h
  | [_], h => simp [Message.Decode, realDecoder, newDecoder, decPush] at h
  | [_, _], h => simp [Message.Decode, realDecoder, newDecoder, decPush] at h
  | [_, _, _], h => simp [Message.Decode, realDecoder, newDecoder, decPush] at h
  | [_, _, _, _], h =>
    simp [Message.Decode, realDecoder, newDecoder, decPush, decGetInt8] at h
  | c0 :: c1 :: c2 :: c3 :: f :: r, h =>
    by_cases hf : f = 0
    · subst hf
      match r, h with
      | [], h =>
        have z : toInt8 (0 : Byte) = message_format := rfl
        simp [Message.Decode, realDecoder, newDecoder, decPush, decGetInt8, track, z] at h
      | a :: r, h =>
        have z : toInt8 (0 : Byte) = message_format := rfl
        simp only [Message.Decode, realDecoder, newDecoder, decPush, decGetInt8, track,
          List.map_nil, List.map_cons, List.nil_append, List.cons_append, z, ne_eq,
          not_true_eq_false, if_false] at h
        rcases hkey : decGetBytes { rest := r, regions := [(fromBE32 c0 c1 c2 c3, [0, a])] }
          with ⟨s1, k, _ | e⟩
        · rw [hkey] at h
          simp only at h
          rcases hval : decGetBytes s1 with ⟨s2, w, _ | e⟩
          · obtain ⟨hr1, -, hk⟩ := decGetBytes_ok _ _ _ hkey
            obtain ⟨hr2, -, hw⟩ := decGetBytes_ok _ _ _ hval
            simp only at hr1
            exact ⟨c0, c1, c2, c3, a, k, w, s2.rest, by rw [hr1, hr2], hk, hw⟩
          · rw [hval] at h
            simp at h
        · rw [hkey] at h
          simp at h
    · rw [Decode_format gz m c0 c1 c2 c3 f r hf] at h
      simp at h


/-- The codec kept by `Decode`: the low three bits of the attribute byte. -/
theorem land_toInt8 (a : Byte) : Int.land (toInt8 a) 0x07 = ((a.val % 8 : Nat) : Int) := by
  revert a
  decide!

/-- The region close of `Decode` with the one region that `Decode` opened. -/
theorem decodeFinish_real (m : Message) (t body : List Byte) (c : Nat) :
    decodeFinish realDecoder m { rest := t, regions := [(c, body)] }
      = (m, { rest := t, regions := [] },
          if crc32 body = c then none else some Error.ChecksumMismatch) := by
  by_cases h : crc32 body = c
  · simp [decodeFinish, realDecoder, decPop, h]
  · simp [decodeFinish, realDecoder, decPop, h]


/-! ## CRC-32 separates messages that differ in one byte -/

theorem crcStep_lt (c : Nat) (h : c < 2 ^ 32) : crcStep c < 2 ^ 32 := by
  unfold crcStep
  split
  · exact Nat.xor_lt_two_pow (by omega) (by decide)
  · omega

theorem crcStep_inj (c d : Nat) (hc : c < 2 ^ 32) (hd : d < 2 ^ 32)
    (h : crcStep c = crcStep d) : c = d := by
  have top : ∀ x, x < 2 ^ 31 → (x ^^^ 0xEDB88320).testBit 31 = true := by
    intro x hx
    rw [Nat.testBit_xor, Nat.testBit_lt_two_pow hx]
    decide
  have low : ∀ x, x < 2 ^ 31 → x.testBit 31 = false := fun x hx => Nat.testBit_lt_two_pow hx
  have hc2 : c / 2 < 2 ^ 31 := by omega
  have hd2 : d / 2 < 2 ^ 31 := by omega
  unfold crcStep at h
  by_cases h1 : c % 2 = 1 <;> by_cases h2 : d % 2 = 1
  · rw [if_pos h1, if_pos h2] at h
    have := Nat.xor_left_inj.1 h
    omega
  · rw [if_pos h1, if_neg h2] at h
    have a := top _ hc2
    rw [h, low _ hd2] at a
    exact absurd a (by decide)
  · rw [if_neg h1, if_pos h2] at h
    have a := top _ hd2
    rw [← h, low _ hc2] at a
    exact absurd a (by decide)
  · rw [if_neg h1, if_neg h2] at h
    omega

theorem crcByte_lt (c : Nat) (b : Byte) (h : c < 2 ^ 32) : crcByte c b < 2 ^ 32 := by
  have hb : b.val < 2 ^ 32 := lt_trans b.isLt (by decide)
  have h0 : c ^^^ b.val < 2 ^ 32 := Nat.xor_lt_two_pow h hb
  unfold crcByte
  exact crcStep_lt _ (crcStep_lt _ (crcStep_lt _ (crcStep_lt _ (crcStep_lt _ (crcStep_lt _
    (crcStep_lt _ (crcStep_lt _ h0)))))))

theorem crcByte_inj (c d : Nat) (b e : Byte) (hc : c < 2 ^ 32) (hd : d < 2 ^ 32)
    (h : crcByte c b = crcByte d e) : c ^^^ b.val = d ^^^ e.val := by
  have hb : b.val < 2 ^ 32 := lt_trans b.isLt (by decide)
  have he : e.val < 2 ^ 32 := lt_trans e.isLt (by decide)
  have x0 : c ^^^ b.val < 2 ^ 32 := Nat.xor_lt_two_pow hc hb
  have y0 : d ^^^ e.val < 2 ^ 32 := Nat.xor_lt_two_pow hd he
  have x1 := crcStep_lt _ x0
  have y1 := crcStep_lt _ y0
  have x2 := crcStep_lt _ x1
  have y2 := crcStep_lt _ y1
  have x3 := crcStep_lt _ x2
  have y3 := crcStep_lt _ y2
  have x4 := crcStep_lt _ x3
  have y4 := crcStep_lt _ y3
  have x5 := crcStep_lt _ x4
  have y5 := crcStep_lt _ y4
  have x6 := crcStep_lt _ x5
  have y6 := crcStep_lt _ y5
  have x7 := crcStep_lt _ x6
  have y7 := crcStep_lt _ y6
  unfold crcByte at h
  exact crcStep_inj _ _ x0 y0 (crcStep_inj _ _ x1 y1 (crcStep_inj _ _ x2 y2
    (crcStep_inj _ _ x3 y3 (crcStep_inj _ _ x4 y4 (crcStep_inj _ _ x5 y5
    (crcStep_inj _ _ x6 y6 (crcStep_inj _ _ x7 y7 h)))))))

theorem foldl_crcByte_lt (bs : List Byte) (c : Nat) (h : c < 2 ^ 32) :
    bs.foldl crcByte c < 2 ^ 32 := by
  induction bs generalizing c with
  | nil => exact h
  | cons b bs ih => exact ih _ (crcByte_lt c b h)

theorem foldl_crcByte_inj (bs : List Byte) (c d : Nat) (hc : c < 2 ^ 32) (hd : d < 2 ^ 32)
    (h : bs.foldl crcByte c = bs.foldl crcByte d) : c = d := by
  induction bs generalizing c d with
  | nil => exact h
  | cons b bs ih =>
    have := ih _ _ (crcByte_lt c b hc) (crcByte_lt d b hd) h
    exact Nat.xor_left_inj.1 (crcByte_inj c d b b hc hd this)

/-- Two messages that differ in exactly one byte have different CRC-32. -/
theorem crc32_one_byte (pre post : List Byte) (b e : Byte) (hne : b ≠ e) :
    crc32 (pre ++ b :: post) ≠ crc32 (pre ++ e :: post) := by
  intro h
  unfold crc32 at h
  have h1 := Nat.xor_left_inj.1 h
  rw [List.foldl_append, List.foldl_append, List.foldl_cons, List.foldl_cons] at h1
  have hs : List.foldl crcByte 0xFFFFFFFF pre < 2 ^ 32 := foldl_crcByte_lt pre _ (by decide)
  have h2 := foldl_crcByte_inj post _ _ (crcByte_lt _ b hs) (crcByte_lt _ e hs) h1
  have h3 := Nat.xor_right_inj.1 (crcByte_inj _ _ b e hs hs h2)
  exact hne (Fin.ext h3)

theorem crc32_lt (bs : List Byte) : crc32 bs < 2 ^ 32 :=
  Nat.xor_lt_two_pow (foldl_crcByte_lt bs _ (by decide)) (by decide)


theorem Encode_ok_iff (gz : GzipLib) (m : Message) (s : EncoderState) :
    (Message.Encode realEncoder gz m s).2 = none ↔
      (blen m.Key ≤ maxInt32 ∧ blen (encodeBody gz m) ≤ maxInt32 ∧
        s.buf.length + 14 + blen m.Key + blen (encodeBody gz m) ≤ s.cap) := by
  rw [Encode_real]
  constructor
  · intro h
    split at h
    · rename_i h1
      split at h
      · rename_i h2
        exact ⟨h1.1, h2.1, h2.2⟩
      · simp at h
    · simp at h
  · rintro ⟨h1, h2, h3⟩
    rw [if_pos ⟨h1, by omega⟩, if_pos ⟨h2, h3⟩]

theorem Encode_ok_state (gz : GzipLib) (m : Message) (s : EncoderState)
    (h : (Message.Encode realEncoder gz m s).2 = none) :
    (Message.Encode realEncoder gz m s).1 =
      { buf := s.buf ++ be32 (crc32 (frameBody gz m)) ++ frameBody gz m,
        cap := s.cap, stack := s.stack } := by
  obtain ⟨h1, h2, h3⟩ := (Encode_ok_iff gz m s).1 h
  rw [Encode_real, if_pos ⟨h1, by omega⟩, if_pos ⟨h2, h3⟩]

theorem written_ok (gz : GzipLib) (m : Message) (s : EncoderState)
    (h : (Message.Encode realEncoder gz m s).2 = none) :
    written s (Message.Encode realEncoder gz m s).1 =
      be32 (crc32 (frameBody gz m)) ++ frameBody gz m := by
  rw [written, Encode_ok_state gz m s h]
  simp [List.append_assoc]

/-- Running `Decode` on a checksum `c` followed by a frame with format byte 0. -/
theorem Decode_frame (gz : GzipLib) (m : Message) (c : Nat) (hc : c < 2 ^ 32) (a : Byte)
    (k w : Option (List Byte)) (t : List Byte)
    (hk : blen k ≤ maxInt32) (hw : blen w ≤ maxInt32) :
    Message.Decode realDecoder gz m
        (newDecoder (be32 c ++ (0 :: a :: (field k ++ (field w ++ t)))))
      = decodeSwitch realDecoder gz { Codec := Int.land (toInt8 a) 0x07, Key := k, Value := w }
          { rest := t, regions := [(c, 0 :: a :: (field k ++ field w))] } := by
  have e : fromBE32 (toByte (c / 2 ^ 24)) (toByte (c / 2 ^ 16)) (toByte (c / 2 ^ 8)) (toByte c)
      = c := by
    rw [fromBE32_be32]; exact Nat.mod_eq_of_lt hc
  have := Decode_fields gz m (toByte (c / 2 ^ 24)) (toByte (c / 2 ^ 16)) (toByte (c / 2 ^ 8))
    (toByte c) a k w t hk hw
  rw [e] at this
  simpa [be32] using this

theorem frameBody_eq (gz : GzipLib) (m : Message) :
    frameBody gz m = 0 :: attrByte m.Codec :: (field m.Key ++ field (encodeBody gz m)) := by
  simp [frameBody, message_format, toByte]


/-! ## Round trips and wire layout -/

/-- C1: round trip without compression.  For every key and value (nil, empty
or not) whose lengths fit the signed 4-byte length prefix, on an encoder with
room for the `14 + len(Key) + len(Value)` bytes of the message, `Encode` of the
record with `Codec = COMPRESSION_NONE` returns nil, and `Decode` of exactly the
bytes it wrote returns nil, has read all of them, and leaves in the receiver
`Codec = COMPRESSION_NONE` and the same `Key` and `Value`, nil staying nil and
empty staying empty. -/
theorem C1_roundtrip_none (gz : GzipLib) (k v : Option (List Byte)) (s : EncoderState)
    (m0 : Message) (hk : blen k ≤ maxInt32) (hv : blen v ≤ maxInt32)
    (hroom : s.buf.length + 14 + blen k + blen v ≤ s.cap) :
    (Message.Encode realEncoder gz { Codec := COMPRESSION_NONE, Key := k, Value := v } s).2
        = none ∧
      Message.Decode realDecoder gz m0 (newDecoder (written s
          (Message.Encode realEncoder gz { Codec := COMPRESSION_NONE, Key := k, Value := v }
            s).1))
        = ({ Codec := COMPRESSION_NONE, Key := k, Value := v },
            { rest := [], regions := [] }, none) := by
  have hb : encodeBody gz { Codec := COMPRESSION_NONE, Key := k, Value := v } = v := by
    simp [encodeBody]
  have hok : (Message.Encode realEncoder gz
      { Codec := COMPRESSION_NONE, Key := k, Value := v } s).2 = none := by
    rw [Encode_ok_iff, hb]
    exact ⟨hk, hv, hroom⟩
  refine ⟨hok, ?_⟩
  rw [written_ok gz _ s hok, frameBody_eq, hb]
  have ha : attrByte COMPRESSION_NONE = 0 := by decide
  have h := Decode_frame gz m0 _ (crc32_lt (0 :: 0 :: (field k ++ field v))) 0 k v [] hk hv
  simp only [List.append_nil] at h
  simp only [ha]
  rw [h]
  have hl : Int.land (toInt8 (0 : Byte)) 0x07 = COMPRESSION_NONE := by decide
  rw [hl]
  simp [decodeSwitch, decodeFinish_real]

/-- Witness of C1: key nil, value empty, a fresh encoder of capacity 14. -/
theorem C1_roundtrip_none_witness :
    blen none ≤ maxInt32 ∧ blen (some []) ≤ maxInt32 ∧
      (newEncoder 14).buf.length + 14 + blen none + blen (some []) ≤ (newEncoder 14).cap ∧
      (Message.Encode realEncoder toyGzip
        { Codec := COMPRESSION_NONE, Key := none, Value := some [] } (newEncoder 14)).2 = none ∧
      Message.Decode realDecoder toyGzip emptyMessage (newDecoder (written (newEncoder 14)
          (Message.Encode realEncoder toyGzip
            { Codec := COMPRESSION_NONE, Key := none, Value := some [] } (newEncoder 14)).1))
        = ({ Codec := COMPRESSION_NONE, Key := none, Value := some [] },
            { rest := [], regions := [] }, none) :=
  ⟨by decide, by decide, by decide,
    C1_roundtrip_none toyGzip none (some []) (newEncoder 14) emptyMessage (by decide) (by decide)
      (by decide)⟩


theorem encodeBody_eq_spec (gz : GzipLib) (r : Message)
    (hc : r.Codec = COMPRESSION_NONE ∨ r.Codec = COMPRESSION_GZIP) :
    encodeBody gz r = specWireValue gz r := by
  rcases hc with h | h
  · simp [encodeBody, specWireValue, h]
  · have n : ¬ (COMPRESSION_GZIP = COMPRESSION_NONE) := by decide
    simp [encodeBody, specWireValue, h, n]

theorem frameBody_eq_spec (gz : GzipLib) (r : Message)
    (hc : r.Codec = COMPRESSION_NONE ∨ r.Codec = COMPRESSION_GZIP) :
    frameBody gz r = specFrame gz r := by
  rw [frameBody_eq, encodeBody_eq_spec gz r hc]
  have ha : attrByte r.Codec = toByte r.Codec.toNat := by
    rcases hc with h | h <;> rw [h] <;> decide
  simp [specFrame, ha]

/-- C2: wire layout and checksum scope.  For a record with codec NONE or GZIP,
the bytes appended by an `Encode` that returns nil are exactly `C ++ B`, where
`B` is the format byte `0x00`, the codec byte, the key field and the field of
the wire value (the value itself for NONE, its gzip stream for GZIP, nil for a
nil value), and `C` is the 4-byte big-endian CRC-32 of `B` and of nothing
else; what the encoder held before is untouched. -/
theorem C2_wire_layout (gz : GzipLib) (r : Message) (s : EncoderState)
    (hc : r.Codec = COMPRESSION_NONE ∨ r.Codec = COMPRESSION_GZIP)
    (hok : (Message.Encode realEncoder gz r s).2 = none) :
    (Message.Encode realEncoder gz r s).1.buf
        = s.buf ++ (be32 (crc32 (specFrame gz r)) ++ specFrame gz r) ∧
      written s (Message.Encode realEncoder gz r s).1
        = be32 (crc32 (specFrame gz r)) ++ specFrame gz r := by
  refine ⟨?_, ?_⟩
  · rw [Encode_ok_state gz r s hok, frameBody_eq_spec gz r hc]
    simp [List.append_assoc]
  · rw [written_ok gz r s hok, frameBody_eq_spec gz r hc]

/-- Witness of C2: a gzip record with a key, appended after two bytes that the
encoder already holds. -/
theorem C2_wire_layout_witness :
    ((({ Codec := COMPRESSION_GZIP, Key := some [7], Value := some [1, 2] } : Message).Codec
          = COMPRESSION_NONE ∨
        ({ Codec := COMPRESSION_GZIP, Key := some [7], Value := some [1, 2] } : Message).Codec
          = COMPRESSION_GZIP) ∧
      (Message.Encode realEncoder toyGzip
        { Codec := COMPRESSION_GZIP, Key := some [7], Value := some [1, 2] }
        { buf := [9, 9], cap := 64, stack := [] }).2 = none) ∧
    ((Message.Encode realEncoder toyGzip
        { Codec := COMPRESSION_GZIP, Key := some [7], Value := some [1, 2] }
        { buf := [9, 9], cap := 64, stack := [] }).1.buf
        = [9, 9] ++ (be32 (crc32 (specFrame toyGzip
            { Codec := COMPRESSION_GZIP, Key := some [7], Value := some [1, 2] }))
          ++ specFrame toyGzip
            { Codec := COMPRESSION_GZIP, Key := some [7], Value := some [1, 2] }) ∧
      written { buf := [9, 9], cap := 64, stack := [] } (Message.Encode realEncoder toyGzip
        { Codec := COMPRESSION_GZIP, Key := some [7], Value := some [1, 2] }
        { buf := [9, 9], cap := 64, stack := [] }).1
        = be32 (crc32 (specFrame toyGzip
            { Codec := COMPRESSION_GZIP, Key := some [7], Value := some [1, 2] }))
          ++ specFrame toyGzip
            { Codec := COMPRESSION_GZIP, Key := some [7], Value := some [1, 2] }) :=
  ⟨⟨Or.inr rfl, by set_option maxRecDepth 100000 in decide⟩,
    C2_wire_layout toyGzip { Codec := COMPRESSION_GZIP, Key := some [7], Value := some [1, 2] }
      { buf := [9, 9], cap := 64, stack := [] } (Or.inr rfl)
      (by set_option maxRecDepth 100000 in decide)⟩

/-- C3: round trip with gzip.  If the gzip reader inverts the gzip writer,
then for every key and every non-nil value (the empty one too), `Decode` of the
bytes written by an `Encode` of the gzip record that returned nil returns nil,
has read all of them, and leaves `Codec = COMPRESSION_GZIP`, the same key and
the same value in the receiver. -/
theorem C3_roundtrip_gzip (gz : GzipLib) (k : Option (List Byte)) (v : List Byte)
    (s : EncoderState) (m0 : Message)
    (hinv : ∀ x, ∃ rd, gz.NewReader (gz.compress x) = .ok rd ∧ gz.ReadAll rd = (x, none))
    (hok : (Message.Encode realEncoder gz
      { Codec := COMPRESSION_GZIP, Key := k, Value := some v } s).2 = none) :
    Message.Decode realDecoder gz m0 (newDecoder (written s
        (Message.Encode realEncoder gz { Codec := COMPRESSION_GZIP, Key := k, Value := some v }
          s).1))
      = ({ Codec := COMPRESSION_GZIP, Key := k, Value := some v },
          { rest := [], regions := [] }, none) := by
  have n : ¬ (COMPRESSION_GZIP = COMPRESSION_NONE) := by decide
  have hb : encodeBody gz { Codec := COMPRESSION_GZIP, Key := k, Value := some v }
      = some (gz.compress v) := by
    simp [encodeBody, n]
  obtain ⟨hk, hv, -⟩ := (Encode_ok_iff gz _ s).1 hok
  rw [hb] at hv
  rw [written_ok gz _ s hok, frameBody_eq, hb]
  have ha : attrByte COMPRESSION_GZIP = 1 := by decide
  have h := Decode_frame gz m0 _ (crc32_lt (0 :: 1 :: (field k ++ field (some (gz.compress v)))))
    1 k (some (gz.compress v)) [] hk hv
  simp only [List.append_nil] at h
  simp only [ha]
  rw [h]
  have hl : Int.land (toInt8 (1 : Byte)) 0x07 = COMPRESSION_GZIP := by decide
  rw [hl]
  obtain ⟨rd, h1, h2⟩ := hinv v
  simp [decodeSwitch, decodeFinish_real, n, h1, h2]

theorem toyGzip_inverts (x : List Byte) :
    ∃ rd, toyGzip.NewReader (toyGzip.compress x) = .ok rd ∧ toyGzip.ReadAll rd = (x, none) :=
  ⟨x, rfl, rfl⟩

/-- Witness of C3: nil key, empty value, on the stand-in gzip. -/
theorem C3_roundtrip_gzip_witness :
    (∀ x, ∃ rd, toyGzip.NewReader (toyGzip.compress x) = .ok rd ∧
        toyGzip.ReadAll rd = (x, none)) ∧
      (Message.Encode realEncoder toyGzip
        { Codec := COMPRESSION_GZIP, Key := none, Value := some [] } (newEncoder 32)).2 = none ∧
      Message.Decode realDecoder toyGzip emptyMessage (newDecoder (written (newEncoder 32)
        (Message.Encode realEncoder toyGzip
          { Codec := COMPRESSION_GZIP, Key := none, Value := some [] } (newEncoder 32)).1))
      = ({ Codec := COMPRESSION_GZIP, Key := none, Value := some [] },
          { rest := [], regions := [] }, none) :=
  ⟨toyGzip_inverts, by set_option maxRecDepth 100000 in decide,
    C3_roundtrip_gzip toyGzip none [] (newEncoder 32) emptyMessage toyGzip_inverts
      (by set_option maxRecDepth 100000 in decide)⟩


/-! ## Checksum verification -/

/-- A `switch m.Codec` and region close that return nil have found the
recomputed CRC-32 equal to the stored one, and have read nothing more. -/
theorem decodeSwitch_ok (gz : GzipLib) (m : Message) (t body : List Byte) (c : Nat)
    (h : (decodeSwitch realDecoder gz m { rest := t, regions := [(c, body)] }).2.2 = none) :
    crc32 body = c ∧
      (decodeSwitch realDecoder gz m { rest := t, regions := [(c, body)] }).2.1
        = { rest := t, regions := [] } := by
  have fin : ∀ m' : Message,
      (decodeFinish realDecoder m' { rest := t, regions := [(c, body)] }).2.2 = none →
      crc32 body = c := by
    intro m' h'
    rw [decodeFinish_real] at h'
    by_contra hne
    simp [hne] at h'
  by_cases h0 : m.Codec = COMPRESSION_NONE
  · simp only [decodeSwitch, if_pos h0] at h ⊢
    exact ⟨fin _ h, by rw [decodeFinish_real]⟩
  · by_cases h1 : m.Codec = COMPRESSION_GZIP
    · cases hv : m.Value with
      | none =>
        simp only [decodeSwitch, if_neg h0, if_pos h1, hv] at h
        simp at h
      | some w =>
        cases hr : gz.NewReader w with
        | error e =>
          simp only [decodeSwitch, if_neg h0, if_pos h1, hv, hr] at h
          simp at h
        | ok rd =>
          rcases hra : gz.ReadAll rd with ⟨out, _ | e⟩
          · simp only [decodeSwitch, if_neg h0, if_pos h1, hv, hr, hra] at h ⊢
            exact ⟨fin _ h, by rw [decodeFinish_real]⟩
          · simp only [decodeSwitch, if_neg h0, if_pos h1, hv, hr, hra] at h
            simp at h
    · by_cases h2 : m.Codec = COMPRESSION_SNAPPY
      · simp only [decodeSwitch, if_neg h0, if_neg h1, if_pos h2] at h ⊢
        exact ⟨fin _ h, by rw [decodeFinish_real]⟩
      · simp only [decodeSwitch, if_neg h0, if_neg h1, if_neg h2] at h
        simp at h

/-- With a stored checksum that differs from the CRC-32 of the frame, a
`switch m.Codec` that gets through ends in `ChecksumMismatch`. -/
theorem decodeSwitch_mismatch (gz : GzipLib) (a : Byte) (k w : Option (List Byte))
    (t body : List Byte) (c : Nat) (hp : passesSwitch gz a w) (hne : c ≠ crc32 body) :
    (decodeSwitch realDecoder gz { Codec := Int.land (toInt8 a) 0x07, Key := k, Value := w }
        { rest := t, regions := [(c, body)] }).2.2 = some Error.ChecksumMismatch := by
  have hne' : ¬ (crc32 body = c) := fun h => hne h.symm
  rw [land_toInt8]
  rcases hp with h | h | ⟨h, x, rd, out, hw, hr, hra⟩
  · simp [decodeSwitch, h, COMPRESSION_NONE, decodeFinish_real, hne']
  · simp [decodeSwitch, h, COMPRESSION_NONE, COMPRESSION_GZIP, COMPRESSION_SNAPPY,
      decodeFinish_real, hne']
  · simp [decodeSwitch, h, COMPRESSION_NONE, COMPRESSION_GZIP, decodeFinish_real, hne', hw, hr,
      hra]

/-- A `Decode` that returns nil has read four checksum bytes and then a frame
whose CRC-32 is the value of those four bytes. -/
theorem Decode_ok_crc (gz : GzipLib) (m0 : Message) (input : List Byte)
    (h : (Message.Decode realDecoder gz m0 (newDecoder input)).2.2 = none) :
    ∃ (c0 c1 c2 c3 a : Byte) (k w : Option (List Byte)),
      input = c0 :: c1 :: c2 :: c3 :: ((0 :: a :: (field k ++ field w))
        ++ (Message.Decode realDecoder gz m0 (newDecoder input)).2.1.rest) ∧
      fromBE32 c0 c1 c2 c3 = crc32 (0 :: a :: (field k ++ field w)) := by
  obtain ⟨c0, c1, c2, c3, a, k, w, t, hin, hk, hw⟩ := Decode_ok_shape gz m0 input h
  subst hin
  rw [Decode_fields gz m0 c0 c1 c2 c3 a k w t hk hw] at h ⊢
  obtain ⟨hcrc, hst⟩ := decodeSwitch_ok gz _ t _ _ h
  refine ⟨c0, c1, c2, c3, a, k, w, ?_, hcrc.symm⟩
  rw [hst]
  simp [List.append_assoc]

/-- C4: checksum verification on decode.  On every input, a `Decode` that
returns nil has read four checksum bytes and then a frame (format byte 0,
attribute byte, key field, value field) whose CRC-32 equals the big-endian
value of those four bytes; and every input that starts with a frame with
format byte 0, readable fields and an attribute byte and wire value that get
through the codec switch, but with a stored checksum different from the CRC-32
of that frame, makes `Decode` return `ChecksumMismatch`. -/
theorem C4_checksum_verified (gz : GzipLib) :
    (∀ (m0 : Message) (input : List Byte),
      (Message.Decode realDecoder gz m0 (newDecoder input)).2.2 = none →
      ∃ (c0 c1 c2 c3 a : Byte) (k w : Option (List Byte)),
        input = c0 :: c1 :: c2 :: c3 :: ((0 :: a :: (field k ++ field w))
          ++ (Message.Decode realDecoder gz m0 (newDecoder input)).2.1.rest) ∧
        fromBE32 c0 c1 c2 c3 = crc32 (0 :: a :: (field k ++ field w))) ∧
    (∀ (m0 : Message) (c0 c1 c2 c3 a : Byte) (k w : Option (List Byte)) (t : List Byte),
      blen k ≤ maxInt32 → blen w ≤ maxInt32 → passesSwitch gz a w →
      fromBE32 c0 c1 c2 c3 ≠ crc32 (0 :: a :: (field k ++ field w)) →
      (Message.Decode realDecoder gz m0
        (newDecoder (c0 :: c1 :: c2 :: c3 :: 0 :: a :: (field k ++ (field w ++ t))))).2.2
        = some Error.ChecksumMismatch) := by
  constructor
  · intro m0 input h
    exact Decode_ok_crc gz m0 input h
  · intro m0 c0 c1 c2 c3 a k w t hk hw hp hne
    rw [Decode_fields gz m0 c0 c1 c2 c3 a k w t hk hw]
    exact decodeSwitch_mismatch gz a k w t _ _ hp hne


/-- Witness of C4: the 14 bytes of the nil/nil record decode with their
checksum verified, and the same frame under a zero checksum is refused. -/
theorem C4_checksum_verified_witness :
    ((Message.Decode realDecoder toyGzip emptyMessage (newDecoder
        [167, 236, 104, 3, 0, 0, 255, 255, 255, 255, 255, 255, 255, 255])).2.2 = none ∧
      ∃ (c0 c1 c2 c3 a : Byte) (k w : Option (List Byte)),
        [167, 236, 104, 3, 0, 0, 255, 255, 255, 255, 255, 255, 255, 255]
          = c0 :: c1 :: c2 :: c3 :: ((0 :: a :: (field k ++ field w))
            ++ (Message.Decode realDecoder toyGzip emptyMessage (newDecoder
              [167, 236, 104, 3, 0, 0, 255, 255, 255, 255, 255, 255, 255, 255])).2.1.rest) ∧
        fromBE32 c0 c1 c2 c3 = crc32 (0 :: a :: (field k ++ field w))) ∧
    (blen none ≤ maxInt32 ∧ passesSwitch toyGzip 0 none ∧
      fromBE32 0 0 0 0 ≠ crc32 (0 :: 0 :: (field none ++ field none)) ∧
      (Message.Decode realDecoder toyGzip emptyMessage
        (newDecoder (0 :: 0 :: 0 :: 0 :: 0 :: 0 :: (field none ++ (field none ++ []))))).2.2
        = some Error.ChecksumMismatch) :=
  ⟨⟨by set_option maxRecDepth 100000 in decide,
      (C4_checksum_verified toyGzip).1 emptyMessage
        [167, 236, 104, 3, 0, 0, 255, 255, 255, 255, 255, 255, 255, 255]
        (by set_option maxRecDepth 100000 in decide)⟩,
    by decide, Or.inl rfl, by set_option maxRecDepth 100000 in decide,
    (C4_checksum_verified toyGzip).2 emptyMessage 0 0 0 0 0 none none [] (by decide) (by decide)
      (Or.inl rfl) (by set_option maxRecDepth 100000 in decide)⟩


/-! ## Bit flips -/

theorem flipByte_ne (b : Byte) (j : Nat) (hj : j < 8) : flipByte b j ≠ b := by
  intro h
  have hb : b.val < 2 ^ 8 := b.isLt
  have hp : 2 ^ j < 2 ^ 8 := Nat.pow_lt_pow_right (by decide) hj
  have hx : b.val ^^^ 2 ^ j < 2 ^ 8 := Nat.xor_lt_two_pow hb hp
  have hv : (flipByte b j).val = b.val ^^^ 2 ^ j := by
    simp only [flipByte, toByte]
    exact Nat.mod_eq_of_lt hx
  rw [h] at hv
  have h0 : b.val ^^^ 2 ^ j = b.val ^^^ 0 := by rw [Nat.xor_zero]; exact hv.symm
  have := Nat.xor_right_inj.1 h0
  have hpos : 0 < 2 ^ j := by positivity
  omega

theorem flipAt_length (l : List Byte) (n j : Nat) : (flipAt l n j).length = l.length := by
  induction l generalizing n with
  | nil => rfl
  | cons b bs ih =>
    cases n with
    | zero => rfl
    | succ n => simp [flipAt, ih]

theorem flipAt_append_right (pre l : List Byte) (n j : Nat) :
    flipAt (pre ++ l) (pre.length + n) j = pre ++ flipAt l n j := by
  induction pre with
  | nil => simp
  | cons b bs ih =>
    have e : (b :: bs).length + n = (bs.length + n) + 1 := by simp; omega
    rw [e]
    simp [flipAt, ih]

theorem flipAt_append_left (l post : List Byte) (n j : Nat) (h : n < l.length) :
    flipAt (l ++ post) n j = flipAt l n j ++ post := by
  induction l generalizing n with
  | nil => simp at h
  | cons b bs ih =>
    cases n with
    | zero => rfl
    | succ n =>
      have h' : n < bs.length := by simpa using h
      simp [flipAt, ih n h']

theorem flipAt_split (l : List Byte) (n j : Nat) (h : n < l.length) :
    ∃ p b q, l = p ++ b :: q ∧ flipAt l n j = p ++ flipByte b j :: q := by
  induction l generalizing n with
  | nil => simp at h
  | cons b bs ih =>
    cases n with
    | zero => exact ⟨[], b, bs, rfl, rfl⟩
    | succ n =>
      have h' : n < bs.length := by simpa using h
      obtain ⟨p, c, q, e1, e2⟩ := ih n h'
      exact ⟨b :: p, c, q, by rw [e1]; rfl, by simp [flipAt, e2]⟩

/-- A flip of one bit changes the CRC-32. -/
theorem crc32_flipAt (l : List Byte) (n j : Nat) (h : n < l.length) (hj : j < 8) :
    crc32 (flipAt l n j) ≠ crc32 l := by
  obtain ⟨p, b, q, e1, e2⟩ := flipAt_split l n j h
  rw [e2, e1]
  exact crc32_one_byte p q _ _ (flipByte_ne b j hj)

/-- A flipped bit behind the four checksum bytes leaves them as they are. -/
theorem flipBit_framed (c body : List Byte) (i : Nat) (hc : c.length = 4) (hi : 32 ≤ i) :
    flipBit (c ++ body) i = c ++ flipAt body (i / 8 - 4) (i % 8) := by
  have e : i / 8 = c.length + (i / 8 - 4) := by omega
  rw [flipBit, e, flipAt_append_right]
  congr 2
  omega


/-- One flipped bit in a frame under the checksum of the unflipped frame: if
the flipped frame still has format byte 0, readable fields and gets through the
codec switch, `Decode` returns `ChecksumMismatch`. -/
theorem Decode_flipped_frame (gz : GzipLib) (m0 : Message) (body : List Byte) (n j : Nat)
    (a : Byte) (k w : Option (List Byte))
    (hn : n < body.length) (hj : j < 8)
    (hflip : flipAt body n j = 0 :: a :: (field k ++ field w))
    (hk : blen k ≤ maxInt32) (hw : blen w ≤ maxInt32) (hp : passesSwitch gz a w) :
    (Message.Decode realDecoder gz m0
      (newDecoder (be32 (crc32 body) ++ flipAt body n j))).2.2
      = some Error.ChecksumMismatch := by
  have hne : crc32 body ≠ crc32 (0 :: a :: (field k ++ field w)) := by
    rw [← hflip]
    exact fun h => crc32_flipAt body n j hn hj h.symm
  have h := Decode_frame gz m0 _ (crc32_lt body) a k w [] hk hw
  simp only [List.append_nil] at h
  rw [hflip, h]
  exact decodeSwitch_mismatch gz a k w [] _ _ hp hne

theorem flipByte_zero_mod8 (j : Nat) (h3 : 3 ≤ j) (h8 : j < 8) :
    (flipByte 0 j).val % 8 = 0 := by
  have : j = 3 ∨ j = 4 ∨ j = 5 ∨ j = 6 ∨ j = 7 := by omega
  rcases this with h | h | h | h | h <;> subst h <;> decide

/-- A flipped bit inside the bytes of a field gives the field of the bytes
with that bit flipped. -/
theorem flipAt_field (l post : List Byte) (n j : Nat) (h : n < l.length) :
    flipAt (field (some l) ++ post) (4 + n) j = field (some (flipAt l n j)) ++ post := by
  have e : field (some l) ++ post = be32 l.length ++ (l ++ post) := by
    simp [field, List.append_assoc]
  have e4 : 4 + n = (be32 l.length).length + n := by rw [be32_length]
  rw [e, e4, flipAt_append_right, flipAt_append_left l post n j h]
  simp [field, flipAt_length, List.append_assoc]


/-! ## Guards of `Decode` -/

/-- C6: format-version guard.  On every input of at least 5 bytes whose fifth
byte is not 0, `Decode` returns `DecodingError` (the error of the format
guard) and leaves the receiver as it was, whatever the four checksum bytes and
the bytes after the format byte are. -/
theorem C6_format_guard (gz : GzipLib) (m0 : Message) (input : List Byte)
    (hlen : 5 ≤ input.length) (hf : input[4]? ≠ some 0) :
    (Message.Decode realDecoder gz m0 (newDecoder input)).2.2 = some Error.DecodingError ∧
      (Message.Decode realDecoder gz m0 (newDecoder input)).1 = m0 := by
  match input, hlen, hf with
  | c0 :: c1 :: c2 :: c3 :: f :: r, _, hf =>
    have hf' : f ≠ 0 := by
      intro h
      apply hf
      simp [h]
    rw [Decode_format gz m0 c0 c1 c2 c3 f r hf']
    exact ⟨rfl, rfl⟩

/-- Witness of C6: format byte 1 in front of an otherwise valid nil/nil
message. -/
theorem C6_format_guard_witness :
    5 ≤ ([167, 236, 104, 3, 1, 0, 255, 255, 255, 255, 255, 255, 255, 255] : List Byte).length ∧
      ([167, 236, 104, 3, 1, 0, 255, 255, 255, 255, 255, 255, 255, 255] : List Byte)[4]?
        ≠ some 0 ∧
      (Message.Decode realDecoder toyGzip emptyMessage (newDecoder
        [167, 236, 104, 3, 1, 0, 255, 255, 255, 255, 255, 255, 255, 255])).2.2
        = some Error.DecodingError ∧
      (Message.Decode realDecoder toyGzip emptyMessage (newDecoder
        [167, 236, 104, 3, 1, 0, 255, 255, 255, 255, 255, 255, 255, 255])).1 = emptyMessage :=
  ⟨by decide, by decide,
    C6_format_guard toyGzip emptyMessage
      [167, 236, 104, 3, 1, 0, 255, 255, 255, 255, 255, 255, 255, 255] (by decide) (by decide)⟩

/-- C7: unknown codec.  On every input with format byte 0, an attribute byte
whose low three bits are 3, 4, 5, 6 or 7, and readable key and value fields,
`Decode` returns `DecodingError` (the error of the `default` branch), whatever
the stored checksum is, the correct one included, and whatever follows. -/
theorem C7_unknown_codec (gz : GzipLib) (m0 : Message) (c0 c1 c2 c3 a : Byte)
    (k w : Option (List Byte)) (t : List Byte)
    (hk : blen k ≤ maxInt32) (hw : blen w ≤ maxInt32) (ha : 3 ≤ a.val % 8) :
    (Message.Decode realDecoder gz m0
      (newDecoder (c0 :: c1 :: c2 :: c3 :: 0 :: a :: (field k ++ (field w ++ t))))).2.2
      = some Error.DecodingError := by
  rw [Decode_fields gz m0 c0 c1 c2 c3 a k w t hk hw, land_toInt8]
  have h0 : ¬ (a.val % 8 = 0) := by omega
  have h1 : ¬ (a.val % 8 = 1) := by omega
  have h2 : ¬ (a.val % 8 = 2) := by omega
  have e0 : ¬ (((a.val % 8 : Nat) : Int) = COMPRESSION_NONE) := by
    unfold COMPRESSION_NONE; omega
  have e1 : ¬ (((a.val % 8 : Nat) : Int) = COMPRESSION_GZIP) := by
    unfold COMPRESSION_GZIP; omega
  have e2 : ¬ (((a.val % 8 : Nat) : Int) = COMPRESSION_SNAPPY) := by
    unfold COMPRESSION_SNAPPY; omega
  simp only [decodeSwitch, if_neg e0, if_neg e1, if_neg e2]

/-- Witness of C7: attribute byte 3 under the correct checksum of the frame. -/
theorem C7_unknown_codec_witness :
    blen none ≤ maxInt32 ∧ 3 ≤ (3 : Byte).val % 8 ∧
      fromBE32 158 97 84 198 = crc32 (0 :: 3 :: (field none ++ field none)) ∧
      (Message.Decode realDecoder toyGzip emptyMessage
        (newDecoder (158 :: 97 :: 84 :: 198 :: 0 :: 3 :: (field none ++ (field none ++ []))))).2.2
        = some Error.DecodingError :=
  ⟨by decide, by decide, by set_option maxRecDepth 100000 in decide,
    C7_unknown_codec toyGzip emptyMessage 158 97 84 198 3 none none [] (by decide) (by decide)
      (by decide)⟩


/-- A frame under its correct checksum, with codec bits 0 or 1 and a wire
value valid for that codec, decodes: the codec is the low three bits of the
attribute byte, the key is the key field, and the value is the wire value
(codec 0) or what the gzip reader reads from it (codec 1). -/
theorem Decode_valid (gz : GzipLib) (m0 : Message) (a : Byte) (k w v : Option (List Byte))
    (hk : blen k ≤ maxInt32) (hw : blen w ≤ maxInt32)
    (hv : (a.val % 8 = 0 ∧ v = w) ∨
      (a.val % 8 = 1 ∧ ∃ x rd out, w = some x ∧ gz.NewReader x = .ok rd ∧
        gz.ReadAll rd = (out, none) ∧ v = some out)) :
    Message.Decode realDecoder gz m0
        (newDecoder (be32 (crc32 (0 :: a :: (field k ++ field w)))
          ++ (0 :: a :: (field k ++ field w))))
      = ({ Codec := ((a.val % 8 : Nat) : Int), Key := k, Value := v },
          { rest := [], regions := [] }, none) := by
  have h := Decode_frame gz m0 _ (crc32_lt (0 :: a :: (field k ++ field w))) a k w [] hk hw
  simp only [List.append_nil] at h
  rw [h, land_toInt8]
  rcases hv with ⟨ha, hv⟩ | ⟨ha, x, rd, out, hx, hr, hra, hv⟩
  · subst hv
    simp [decodeSwitch, ha, COMPRESSION_NONE, decodeFinish_real]
  · subst hv
    simp [decodeSwitch, ha, COMPRESSION_NONE, COMPRESSION_GZIP, decodeFinish_real, hx, hr, hra]

theorem toByte_mod8 (a : Byte) : (toByte (a.val % 8)).val % 8 = a.val % 8 := by
  have := a.isLt
  simp only [toByte]
  omega

/-- C8: reserved attribute bits are ignored.  For every attribute byte `a`
whose low three bits are 0 or 1 (bits 3-7 arbitrary, e.g. `0x09`), every key,
and every wire value valid for that codec (any value for 0; for 1 a stream the
gzip reader accepts and reads to its end), `Decode` of
`C ++ [0x00, a] ++ field(key) ++ field(wire)` with `C` the CRC-32 of the bytes
after it returns nil with `Codec = a & 0x07`, the same key and the value
obtained under that codec; the record and the error are those obtained
for the attribute byte `a & 0x07` itself. -/
theorem C8_reserved_bits_ignored (gz : GzipLib) (m0 : Message) (a : Byte)
    (k w v : Option (List Byte))
    (hk : blen k ≤ maxInt32) (hw : blen w ≤ maxInt32)
    (hv : (a.val % 8 = 0 ∧ v = w) ∨
      (a.val % 8 = 1 ∧ ∃ x rd out, w = some x ∧ gz.NewReader x = .ok rd ∧
        gz.ReadAll rd = (out, none) ∧ v = some out)) :
    Message.Decode realDecoder gz m0
        (newDecoder (be32 (crc32 (0 :: a :: (field k ++ field w)))
          ++ (0 :: a :: (field k ++ field w))))
      = ({ Codec := ((a.val % 8 : Nat) : Int), Key := k, Value := v },
          { rest := [], regions := [] }, none) ∧
    Message.Decode realDecoder gz m0
        (newDecoder (be32 (crc32 (0 :: a :: (field k ++ field w)))
          ++ (0 :: a :: (field k ++ field w))))
      = Message.Decode realDecoder gz m0
        (newDecoder (be32 (crc32 (0 :: toByte (a.val % 8) :: (field k ++ field w)))
          ++ (0 :: toByte (a.val % 8) :: (field k ++ field w)))) := by
  have h1 := Decode_valid gz m0 a k w v hk hw hv
  have h2 := Decode_valid gz m0 (toByte (a.val % 8)) k w v hk hw (by rw [toByte_mod8]; exact hv)
  rw [toByte_mod8] at h2
  exact ⟨h1, by rw [h1, h2]⟩

/-- Witness of C8: attribute byte `0x09` (codec 1 with bit 3 set) over a
stream of the stand-in gzip. -/
theorem C8_reserved_bits_ignored_witness :
    (blen (some [7]) ≤ maxInt32 ∧ blen (some [31, 139, 5]) ≤ maxInt32 ∧
      ((9 : Byte).val % 8 = 1 ∧ ∃ x rd out, some [31, 139, 5] = some x ∧
        toyGzip.NewReader x = .ok rd ∧ toyGzip.ReadAll rd = (out, none) ∧
        some [5] = some out)) ∧
    (Message.Decode realDecoder toyGzip emptyMessage
        (newDecoder (be32 (crc32 (0 :: 9 :: (field (some [7]) ++ field (some [31, 139, 5]))))
          ++ (0 :: 9 :: (field (some [7]) ++ field (some [31, 139, 5])))))
      = ({ Codec := (((9 : Byte).val % 8 : Nat) : Int), Key := some [7], Value := some [5] },
          { rest := [], regions := [] }, none) ∧
    Message.Decode realDecoder toyGzip emptyMessage
        (newDecoder (be32 (crc32 (0 :: 9 :: (field (some [7]) ++ field (some [31, 139, 5]))))
          ++ (0 :: 9 :: (field (some [7]) ++ field (some [31, 139, 5])))))
      = Message.Decode realDecoder toyGzip emptyMessage
        (newDecoder (be32 (crc32 (0 :: toByte ((9 : Byte).val % 8)
            :: (field (some [7]) ++ field (some [31, 139, 5]))))
          ++ (0 :: toByte ((9 : Byte).val % 8)
            :: (field (some [7]) ++ field (some [31, 139, 5])))))) :=
  ⟨⟨by decide, by decide, by decide, [31, 139, 5], [5], [5], rfl, rfl, rfl, rfl⟩,
    C8_reserved_bits_ignored toyGzip emptyMessage 9 (some [7]) (some [31, 139, 5]) (some [5])
      (by decide) (by decide)
      (Or.inr ⟨by decide, [31, 139, 5], [5], [5], rfl, rfl, rfl, rfl⟩)⟩

/-! ## The Snappy stubs -/

/-- C9 (the code at the failing input): `Encode` of a Snappy record with the
value `[1, 2, 3]` returns nil; it has written the attribute byte 2 and a value
field of length -1, and the three value bytes are nowhere in the output. -/
theorem C9_snappy_encode_returns_nil :
    Message.Encode realEncoder toyGzip
        { Codec := COMPRESSION_SNAPPY, Key := none, Value := some [1, 2, 3] } (newEncoder 64)
      = ({ buf := [137, 26, 64, 133, 0, 2, 255, 255, 255, 255, 255, 255, 255, 255],
           cap := 64, stack := [] }, none) := by
  set_option maxRecDepth 100000 in decide

/-- C10 (the code at the failing input): `Decode` of a message with attribute
byte 2 (Snappy), a nil key, the wire value `[1, 2, 3]` and the correct checksum
returns nil, with the wire value passed through as the record's `Value`. -/
theorem C10_snappy_decode_returns_nil :
    fromBE32 207 127 96 239 = crc32 [0, 2, 255, 255, 255, 255, 0, 0, 0, 3, 1, 2, 3] ∧
    Message.Decode realDecoder toyGzip emptyMessage
        (newDecoder [207, 127, 96, 239, 0, 2, 255, 255, 255, 255, 0, 0, 0, 3, 1, 2, 3])
      = ({ Codec := COMPRESSION_SNAPPY, Key := none, Value := some [1, 2, 3] },
          { rest := [], regions := [] }, none) := by
  set_option maxRecDepth 100000 in decide

/-! ## Nil payloads -/

theorem field_none : field none = [255, 255, 255, 255] := by decide

/-- C11: gzip with a nil payload.  For every key, `Encode` of the record with
`Codec = COMPRESSION_GZIP` and `Value = nil` returns nil on an encoder with
room and writes, after the key field, a value field of length -1 and no value
byte (nothing is compressed); `Decode` of those bytes returns `DecodingError`
(the error of the nil check in the gzip case); and so does `Decode` of every
input with format byte 0, codec bits 1, a readable key field and a value field
of length -1, whatever the checksum and the bytes that follow. -/
theorem C11_gzip_nil_value (gz : GzipLib) (k : Option (List Byte)) (s : EncoderState)
    (m0 : Message) (hk : blen k ≤ maxInt32) (hroom : s.buf.length + 14 + blen k ≤ s.cap) :
    (Message.Encode realEncoder gz { Codec := COMPRESSION_GZIP, Key := k, Value := none } s).2
        = none ∧
      written s (Message.Encode realEncoder gz
          { Codec := COMPRESSION_GZIP, Key := k, Value := none } s).1
        = be32 (crc32 (0 :: 1 :: (field k ++ [255, 255, 255, 255])))
            ++ (0 :: 1 :: (field k ++ [255, 255, 255, 255])) ∧
      (Message.Decode realDecoder gz m0 (newDecoder (written s (Message.Encode realEncoder gz
          { Codec := COMPRESSION_GZIP, Key := k, Value := none } s).1))).2.2
        = some Error.DecodingError ∧
      ∀ (c0 c1 c2 c3 a : Byte) (k' : Option (List Byte)) (t : List Byte),
        a.val % 8 = 1 → blen k' ≤ maxInt32 →
        (Message.Decode realDecoder gz m0 (newDecoder
          (c0 :: c1 :: c2 :: c3 :: 0 :: a :: (field k' ++ ([255, 255, 255, 255] ++ t))))).2.2
          = some Error.DecodingError := by
  have n : ¬ (COMPRESSION_GZIP = COMPRESSION_NONE) := by decide
  have hb : encodeBody gz { Codec := COMPRESSION_GZIP, Key := k, Value := none } = none := by
    simp [encodeBody, n]
  have gen : ∀ (c0 c1 c2 c3 a : Byte) (k' : Option (List Byte)) (t : List Byte),
      a.val % 8 = 1 → blen k' ≤ maxInt32 →
      (Message.Decode realDecoder gz m0 (newDecoder
        (c0 :: c1 :: c2 :: c3 :: 0 :: a :: (field k' ++ ([255, 255, 255, 255] ++ t))))).2.2
        = some Error.DecodingError := by
    intro c0 c1 c2 c3 a k' t ha hk'
    rw [← field_none, Decode_fields gz m0 c0 c1 c2 c3 a k' none t hk' (by decide), land_toInt8]
    simp [decodeSwitch, ha, COMPRESSION_NONE, COMPRESSION_GZIP]
  have hok : (Message.Encode realEncoder gz
      { Codec := COMPRESSION_GZIP, Key := k, Value := none } s).2 = none := by
    rw [Encode_ok_iff, hb]
    exact ⟨hk, by decide, by simpa [blen_none] using hroom⟩
  have hw := written_ok gz _ s hok
  rw [frameBody_eq, hb] at hw
  have ha : attrByte COMPRESSION_GZIP = 1 := by decide
  simp only [ha, field_none] at hw
  refine ⟨hok, hw, ?_, gen⟩
  rw [hw]
  have := gen (toByte (crc32 (0 :: 1 :: (field k ++ [255, 255, 255, 255])) / 2 ^ 24))
    (toByte (crc32 (0 :: 1 :: (field k ++ [255, 255, 255, 255])) / 2 ^ 16))
    (toByte (crc32 (0 :: 1 :: (field k ++ [255, 255, 255, 255])) / 2 ^ 8))
    (toByte (crc32 (0 :: 1 :: (field k ++ [255, 255, 255, 255])))) 1 k [] (by decide) hk
  simpa [be32] using this

/-- Witness of C11: the key `[7]` on a fresh encoder of capacity 15. -/
theorem C11_gzip_nil_value_witness :
    (blen (some [7]) ≤ maxInt32 ∧
      (newEncoder 15).buf.length + 14 + blen (some [7]) ≤ (newEncoder 15).cap) ∧
    ((Message.Encode realEncoder toyGzip
        { Codec := COMPRESSION_GZIP, Key := some [7], Value := none } (newEncoder 15)).2
        = none ∧
      written (newEncoder 15) (Message.Encode realEncoder toyGzip
          { Codec := COMPRESSION_GZIP, Key := some [7], Value := none } (newEncoder 15)).1
        = be32 (crc32 (0 :: 1 :: (field (some [7]) ++ [255, 255, 255, 255])))
            ++ (0 :: 1 :: (field (some [7]) ++ [255, 255, 255, 255])) ∧
      (Message.Decode realDecoder toyGzip emptyMessage (newDecoder (written (newEncoder 15)
        (Message.Encode realEncoder toyGzip
          { Codec := COMPRESSION_GZIP, Key := some [7], Value := none } (newEncoder 15)).1))).2.2
        = some Error.DecodingError ∧
      ∀ (c0 c1 c2 c3 a : Byte) (k' : Option (List Byte)) (t : List Byte),
        a.val % 8 = 1 → blen k' ≤ maxInt32 →
        (Message.Decode realDecoder toyGzip emptyMessage (newDecoder
          (c0 :: c1 :: c2 :: c3 :: 0 :: a :: (field k' ++ ([255, 255, 255, 255] ++ t))))).2.2
          = some Error.DecodingError) :=
  ⟨⟨by decide, by decide⟩,
    C11_gzip_nil_value toyGzip (some [7]) (newEncoder 15) emptyMessage (by decide) (by decide)⟩

/-- C12: null handling.  On an encoder with room for 14 bytes, `Encode` of the
record with codec NONE, nil key and nil value returns nil and writes exactly
the 14 bytes `a7 ec 68 03` (the CRC-32 of the ten bytes that follow), `00`
(format), `00` (attributes), `ff ff ff ff` (key length -1), `ff ff ff ff`
(value length -1), with no key byte and no value byte; and `Decode` of those
14 bytes returns nil with `Key = nil` and `Value = nil`, not empty slices. -/
theorem C12_null_handling (gz : GzipLib) (s : EncoderState) (m0 : Message)
    (hroom : s.buf.length + 14 ≤ s.cap) :
    (Message.Encode realEncoder gz { Codec := COMPRESSION_NONE, Key := none, Value := none }
        s).2 = none ∧
      written s (Message.Encode realEncoder gz
          { Codec := COMPRESSION_NONE, Key := none, Value := none } s).1
        = [167, 236, 104, 3, 0, 0, 255, 255, 255, 255, 255, 255, 255, 255] ∧
      fromBE32 167 236 104 3 = crc32 [0, 0, 255, 255, 255, 255, 255, 255, 255, 255] ∧
      Message.Decode realDecoder gz m0
          (newDecoder [167, 236, 104, 3, 0, 0, 255, 255, 255, 255, 255, 255, 255, 255])
        = ({ Codec := COMPRESSION_NONE, Key := none, Value := none },
            { rest := [], regions := [] }, none) := by
  have hb : encodeBody gz { Codec := COMPRESSION_NONE, Key := none, Value := none } = none := by
    simp [encodeBody]
  have hok : (Message.Encode realEncoder gz
      { Codec := COMPRESSION_NONE, Key := none, Value := none } s).2 = none := by
    rw [Encode_ok_iff, hb]
    exact ⟨by decide, by decide, by simpa [blen_none] using hroom⟩
  have hw := written_ok gz _ s hok
  rw [frameBody_eq, hb] at hw
  have ha : attrByte COMPRESSION_NONE = 0 := by decide
  have hcrc : crc32 [0, 0, 255, 255, 255, 255, 255, 255, 255, 255] = 2817288195 := by
    set_option maxRecDepth 100000 in decide
  have hbe : be32 2817288195 = [167, 236, 104, 3] := by decide
  simp only [ha, field_none, List.cons_append, List.nil_append, hcrc, hbe] at hw
  refine ⟨hok, hw, ?_, ?_⟩
  · rw [hcrc]; decide
  · have h := Decode_frame gz m0 2817288195 (by decide) 0 none none [] (by decide) (by decide)
    simp only [hbe, field_none, List.cons_append, List.nil_append, List.append_nil] at h
    rw [h]
    have hl : Int.land (toInt8 (0 : Byte)) 0x07 = COMPRESSION_NONE := by decide
    rw [hl]
    simp [decodeSwitch, decodeFinish_real, hcrc]

/-- Witness of C12: a fresh encoder of capacity 14. -/
theorem C12_null_handling_witness :
    (newEncoder 14).buf.length + 14 ≤ (newEncoder 14).cap ∧
    ((Message.Encode realEncoder toyGzip
        { Codec := COMPRESSION_NONE, Key := none, Value := none } (newEncoder 14)).2 = none ∧
      written (newEncoder 14) (Message.Encode realEncoder toyGzip
          { Codec := COMPRESSION_NONE, Key := none, Value := none } (newEncoder 14)).1
        = [167, 236, 104, 3, 0, 0, 255, 255, 255, 255, 255, 255, 255, 255] ∧
      fromBE32 167 236 104 3 = crc32 [0, 0, 255, 255, 255, 255, 255, 255, 255, 255] ∧
      Message.Decode realDecoder toyGzip emptyMessage
          (newDecoder [167, 236, 104, 3, 0, 0, 255, 255, 255, 255, 255, 255, 255, 255])
        = ({ Codec := COMPRESSION_NONE, Key := none, Value := none },
            { rest := [], regions := [] }, none)) :=
  ⟨by decide, C12_null_handling toyGzip (newEncoder 14) emptyMessage (by decide)⟩

/-! ## The attribute byte -/

theorem ldiff_seven (m : Nat) : Nat.ldiff 7 m = Nat.ldiff 7 (m % 8) := by
  apply Nat.eq_of_testBit_eq
  intro k
  have e : m % 8 = m % 2 ^ 3 := rfl
  rw [Nat.testBit_ldiff, Nat.testBit_ldiff, e, Nat.testBit_mod_two_pow]
  by_cases hk : k < 3
  · simp [hk]
  · have h7 : Nat.testBit 7 k = false :=
      Nat.testBit_lt_two_pow (lt_of_lt_of_le (by decide : 7 < 2 ^ 3)
        (Nat.pow_le_pow_right (by decide) (not_lt.1 hk)))
    simp [h7]

theorem ldiff_seven_small : ∀ j : Fin 8, Nat.ldiff 7 j.val = 7 - j.val := by decide!

/-- The mask `& 0x07` on any integer is its residue modulo 8. -/
theorem land_seven (c : Int) : Int.land c 0x07 = c % 8 := by
  cases c with
  | ofNat m =>
    have h : Int.land (Int.ofNat m) 0x07 = ((m &&& 7 : Nat) : Int) := rfl
    have h2 : m &&& 7 = m % 8 := Nat.and_pow_two_sub_one_eq_mod m 3
    rw [h, h2]
    simp only [Int.ofNat_eq_coe]
    omega
  | negSucc m =>
    have h : Int.land (Int.negSucc m) 0x07 = ((Nat.ldiff 7 m : Nat) : Int) := rfl
    have h2 := ldiff_seven_small ⟨m % 8, Nat.mod_lt m (by decide)⟩
    simp only at h2
    rw [h, ldiff_seven, h2, Int.negSucc_eq]
    omega

theorem attrByte_val (c : Int) : ((attrByte c).val : Int) = c % 8 := by
  have h0 : ∀ x : Int, Int.lor 0 x = x := by
    intro x
    cases x with
    | ofNat n =>
      have : Int.lor (Int.ofNat 0) (Int.ofNat n) = ((0 ||| n : Nat) : Int) := rfl
      simpa using this
    | negSucc n =>
      have : Int.lor (Int.ofNat 0) (Int.negSucc n) = Int.negSucc (Nat.ldiff n 0) := rfl
      have e : Nat.ldiff n 0 = n := by
        apply Nat.eq_of_testBit_eq
        intro k
        simp [Nat.testBit_ldiff]
      rw [e] at this
      exact this
  simp only [attrByte, toByte, h0, land_seven]
  omega

/-- The bytes that `Encode` has appended start with the four bytes of the
checksum slot, the format byte and the attribute byte, whether or not a later
write failed. -/
theorem written_header (gz : GzipLib) (r : Message) (s : EncoderState) :
    ∃ (c0 c1 c2 c3 : Byte) (rest : List Byte),
      written s (Message.Encode realEncoder gz r s).1
        = c0 :: c1 :: c2 :: c3 :: 0 :: attrByte r.Codec :: rest := by
  rw [Encode_real]
  have z : toByte (message_format % 256).toNat = 0 := by decide
  split
  · split
    · exact ⟨toByte (crc32 (frameBody gz r) / 2 ^ 24), toByte (crc32 (frameBody gz r) / 2 ^ 16),
        toByte (crc32 (frameBody gz r) / 2 ^ 8), toByte (crc32 (frameBody gz r)),
        field r.Key ++ field (encodeBody gz r),
        by simp [written, frameBody_eq, be32, List.append_assoc]⟩
    · exact ⟨0, 0, 0, 0, field r.Key, by simp [written, z, List.append_assoc]⟩
  · exact ⟨0, 0, 0, 0, [], by simp [written, z, List.append_assoc]⟩

/-- C13: attribute byte on encode.  For every record, with any codec value
whatsoever (outside 0-2 and negative values included), and every encoder, the
second byte that `Encode` writes after the checksum slot (byte 5 of what it
appends) is `Codec & 0x07`: its value is the codec modulo 8, so its bits 0-2
are the low three bits of the codec and its bits 3-7 are zero. -/
theorem C13_attribute_byte (gz : GzipLib) (r : Message) (s : EncoderState) :
    ∃ b : Byte, (written s (Message.Encode realEncoder gz r s).1)[5]? = some b ∧
      (b.val : Int) = Int.land r.Codec 0x07 ∧ (b.val : Int) = r.Codec % 8 ∧ b.val < 8 := by
  obtain ⟨c0, c1, c2, c3, rest, h⟩ := written_header gz r s
  refine ⟨attrByte r.Codec, by rw [h]; simp, ?_, attrByte_val r.Codec, ?_⟩
  · rw [land_seven, attrByte_val]
  · have := attrByte_val r.Codec
    omega

/-! ## Errors and effects of `Encode` -/

/-- C14: write failures propagate unchanged.  For every implementation of the
encoder interface, every record and every encoder state: if `PutBytes` of the
key returns an error, `Encode` returns exactly that error and the encoder is
left as that `PutBytes` left it (no write of the value field is attempted); if
the key is written and `PutBytes` of the value returns an error, `Encode`
returns exactly that error; and if neither fails, `Encode` returns the result
of closing the region with `Pop`, for every codec. -/
theorem C14_write_failures_propagate {σ : Type} (E : PacketEncoder σ) (gz : GzipLib)
    (r : Message) (pe : σ) :
    (∀ (pe1 : σ) (e : Error),
      E.PutBytes (E.PutInt8 (E.PutInt8 (E.Push pe) message_format)
        (Int.lor 0 (Int.land r.Codec 0x07))) r.Key = (pe1, some e) →
      Message.Encode E gz r pe = (pe1, some e)) ∧
    (∀ (pe1 pe2 : σ) (e : Error),
      E.PutBytes (E.PutInt8 (E.PutInt8 (E.Push pe) message_format)
        (Int.lor 0 (Int.land r.Codec 0x07))) r.Key = (pe1, none) →
      E.PutBytes pe1 (encodeBody gz r) = (pe2, some e) →
      Message.Encode E gz r pe = (pe2, some e)) ∧
    (∀ (pe1 pe2 : σ),
      E.PutBytes (E.PutInt8 (E.PutInt8 (E.Push pe) message_format)
        (Int.lor 0 (Int.land r.Codec 0x07))) r.Key = (pe1, none) →
      E.PutBytes pe1 (encodeBody gz r) = (pe2, none) →
      Message.Encode E gz r pe = E.Pop pe2) := by
  refine ⟨?_, ?_, ?_⟩
  · intro pe1 e h
    simp only [Message.Encode, h]
  · intro pe1 pe2 e h1 h2
    simp only [Message.Encode, h1, h2]
  · intro pe1 pe2 h1 h2
    simp only [Message.Encode, h1, h2]

/-- Witness of C14: the nil/nil record on the encoder of section 6 with
capacity 5 (the key does not fit), 10 (the value does not fit) and 14. -/
theorem C14_write_failures_propagate_witness :
    (realEncoder.PutBytes (realEncoder.PutInt8 (realEncoder.PutInt8
        (realEncoder.Push (newEncoder 5)) message_format)
        (Int.lor 0 (Int.land emptyMessage.Codec 0x07))) emptyMessage.Key
        = ({ buf := [0, 0, 0, 0, 0, 0], cap := 5, stack := [0] }, some Error.BufferExhausted) ∧
      Message.Encode realEncoder toyGzip emptyMessage (newEncoder 5)
        = ({ buf := [0, 0, 0, 0, 0, 0], cap := 5, stack := [0] },
            some Error.BufferExhausted)) ∧
    (realEncoder.PutBytes (realEncoder.PutInt8 (realEncoder.PutInt8
        (realEncoder.Push (newEncoder 10)) message_format)
        (Int.lor 0 (Int.land emptyMessage.Codec 0x07))) emptyMessage.Key
        = ({ buf := [0, 0, 0, 0, 0, 0, 255, 255, 255, 255], cap := 10, stack := [0] }, none) ∧
      realEncoder.PutBytes
          { buf := [0, 0, 0, 0, 0, 0, 255, 255, 255, 255], cap := 10, stack := [0] }
          (encodeBody toyGzip emptyMessage)
        = ({ buf := [0, 0, 0, 0, 0, 0, 255, 255, 255, 255], cap := 10, stack := [0] },
            some Error.BufferExhausted) ∧
      Message.Encode realEncoder toyGzip emptyMessage (newEncoder 10)
        = ({ buf := [0, 0, 0, 0, 0, 0, 255, 255, 255, 255], cap := 10, stack := [0] },
            some Error.BufferExhausted)) ∧
    (realEncoder.PutBytes (realEncoder.PutInt8 (realEncoder.PutInt8
        (realEncoder.Push (newEncoder 14)) message_format)
        (Int.lor 0 (Int.land emptyMessage.Codec 0x07))) emptyMessage.Key
        = ({ buf := [0, 0, 0, 0, 0, 0, 255, 255, 255, 255], cap := 14, stack := [0] }, none) ∧
      realEncoder.PutBytes
          { buf := [0, 0, 0, 0, 0, 0, 255, 255, 255, 255], cap := 14, stack := [0] }
          (encodeBody toyGzip emptyMessage)
        = ({ buf := [0, 0, 0, 0, 0, 0, 255, 255, 255, 255, 255, 255, 255, 255],
             cap := 14, stack := [0] }, none) ∧
      Message.Encode realEncoder toyGzip emptyMessage (newEncoder 14)
        = realEncoder.Pop
            { buf := [0, 0, 0, 0, 0, 0, 255, 255, 255, 255, 255, 255, 255, 255],
              cap := 14, stack := [0] }) :=
  ⟨⟨by decide,
      (C14_write_failures_propagate realEncoder toyGzip emptyMessage (newEncoder 5)).1
        { buf := [0, 0, 0, 0, 0, 0], cap := 5, stack := [0] } Error.BufferExhausted
        (by decide)⟩,
    ⟨by decide, by decide,
      (C14_write_failures_propagate realEncoder toyGzip emptyMessage (newEncoder 10)).2.1
        { buf := [0, 0, 0, 0, 0, 0, 255, 255, 255, 255], cap := 10, stack := [0] }
        { buf := [0, 0, 0, 0, 0, 0, 255, 255, 255, 255], cap := 10, stack := [0] }
        Error.BufferExhausted (by decide) (by decide)⟩,
    ⟨by decide, by decide,
      (C14_write_failures_propagate realEncoder toyGzip emptyMessage (newEncoder 14)).2.2
        { buf := [0, 0, 0, 0, 0, 0, 255, 255, 255, 255], cap := 14, stack := [0] }
        { buf := [0, 0, 0, 0, 0, 0, 255, 255, 255, 255, 255, 255, 255, 255],
          cap := 14, stack := [0] }
        (by decide) (by decide)⟩⟩

/-- C15: `Encode` has no side effect on the record.  For every implementation
of the encoder interface, every record and every encoder state, the receiver
when `Encode` returns, with nil or with an error, has the `Codec`, `Key` and
`Value` it had before the call (with gzip the compressed bytes go to the local
`body`, not to `Value`); the encoder and the error are those of `Encode`. -/
theorem C15_encode_keeps_record {σ : Type} (E : PacketEncoder σ) (gz : GzipLib)
    (r : Message) (pe : σ) :
    (Message.EncodeRcv E gz r pe).1.m = r ∧
      ((Message.EncodeRcv E gz r pe).1.pe, (Message.EncodeRcv E gz r pe).2)
        = Message.Encode E gz r pe := by
  unfold Message.EncodeRcv Message.Encode
  simp only
  rcases hk : E.PutBytes (E.PutInt8 (E.PutInt8 (E.Push pe) message_format)
    (Int.lor 0 (Int.land r.Codec 0x07))) r.Key with ⟨pe1, _ | e⟩
  · simp only
    by_cases h0 : r.Codec = COMPRESSION_NONE
    · have hb : encodeBody gz r = r.Value := by simp [encodeBody, h0]
      simp only [if_pos h0, hb]
      rcases hv : E.PutBytes pe1 r.Value with ⟨pe2, _ | e⟩ <;> simp
    · by_cases h1 : r.Codec = COMPRESSION_GZIP
      · cases hval : r.Value with
        | none =>
          have hb : encodeBody gz r = none := by
            simp only [encodeBody, if_neg h0, if_pos h1, hval]
          simp only [if_neg h0, if_pos h1, hb, hval]
          rcases hv : E.PutBytes pe1 none with ⟨pe2, _ | e⟩ <;> simp
        | some v =>
          have hb : encodeBody gz r = some (gz.compress v) := by
            simp only [encodeBody, if_neg h0, if_pos h1, hval]
          simp only [if_neg h0, if_pos h1, hb, hval]
          rcases hv : E.PutBytes pe1 (some (gz.compress v)) with ⟨pe2, _ | e⟩ <;> simp
      · have hb : encodeBody gz r = none := by
          simp only [encodeBody, if_neg h0, if_neg h1, ite_self]
        simp only [if_neg h0, if_neg h1, hb, ite_self]
        rcases hv : E.PutBytes pe1 none with ⟨pe2, _ | e⟩ <;> simp
  · simp

/-! ## The receiver of `Decode` -/

theorem decodeFinish_rcv {δ : Type} (D : PacketDecoder δ) (m : Message) (pd : δ) :
    (decodeFinish D m pd).1 = m := by
  unfold decodeFinish
  rcases D.Pop pd with ⟨pd1, _ | e⟩ <;> rfl

/-- The `switch m.Codec` of `Decode` leaves `Codec` and `Key` alone, and
`Value` too unless the codec is gzip. -/
theorem decodeSwitch_rcv {δ : Type} (D : PacketDecoder δ) (gz : GzipLib) (m : Message) (pd : δ) :
    (decodeSwitch D gz m pd).1.Codec = m.Codec ∧ (decodeSwitch D gz m pd).1.Key = m.Key ∧
      (m.Codec ≠ COMPRESSION_GZIP → (decodeSwitch D gz m pd).1.Value = m.Value) := by
  by_cases h0 : m.Codec = COMPRESSION_NONE
  · simp only [decodeSwitch, if_pos h0, decodeFinish_rcv]
    exact ⟨trivial, trivial, fun _ => trivial⟩
  · by_cases h1 : m.Codec = COMPRESSION_GZIP
    · refine ⟨?_, ?_, fun h => absurd h1 h⟩
      · cases hv : m.Value with
        | none => simp only [decodeSwitch, if_neg h0, if_pos h1, hv]
        | some w =>
          cases hr : gz.NewReader w with
          | error e => simp only [decodeSwitch, if_neg h0, if_pos h1, hv, hr]
          | ok rd =>
            rcases hra : gz.ReadAll rd with ⟨out, _ | e⟩ <;>
              simp only [decodeSwitch, if_neg h0, if_pos h1, hv, hr, hra, decodeFinish_rcv]
      · cases hv : m.Value with
        | none => simp only [decodeSwitch, if_neg h0, if_pos h1, hv]
        | some w =>
          cases hr : gz.NewReader w with
          | error e => simp only [decodeSwitch, if_neg h0, if_pos h1, hv, hr]
          | ok rd =>
            rcases hra : gz.ReadAll rd with ⟨out, _ | e⟩ <;>
              simp only [decodeSwitch, if_neg h0, if_pos h1, hv, hr, hra, decodeFinish_rcv]
    · by_cases h2 : m.Codec = COMPRESSION_SNAPPY
      · simp only [decodeSwitch, if_neg h0, if_neg h1, if_pos h2, decodeFinish_rcv]
        exact ⟨trivial, trivial, fun _ => trivial⟩
      · simp only [decodeSwitch, if_neg h0, if_neg h1, if_neg h2]
        exact ⟨trivial, trivial, fun _ => trivial⟩

/-- An input shorter than six bytes, or with a format byte other than 0, ends
`Decode` with an error and the receiver untouched. -/
theorem Decode_early_error (gz : GzipLib) (m0 : Message) (input : List Byte)
    (h : input.length < 6 ∨ input[4]? ≠ some 0) :
    (Message.Decode realDecoder gz m0 (newDecoder input)).2.2 ≠ none ∧
      (Message.Decode realDecoder gz m0 (newDecoder input)).1 = m0 := by
  have z : toInt8 (0 : Byte) = message_format := rfl
  match input, h with
  | [], _ => simp [Message.Decode, realDecoder, newDecoder, decPush]
  | [_], _ => simp [Message.Decode, realDecoder, newDecoder, decPush]
  | [_, _], _ => simp [Message.Decode, realDecoder, newDecoder, decPush]
  | [_, _, _], _ => simp [Message.Decode, realDecoder, newDecoder, decPush]
  | [_, _, _, _], _ => simp [Message.Decode, realDecoder, newDecoder, decPush, decGetInt8]
  | c0 :: c1 :: c2 :: c3 :: f :: r, h =>
    by_cases hf : f = 0
    · subst hf
      match r, h with
      | [], _ =>
        simp [Message.Decode, realDecoder, newDecoder, decPush, decGetInt8, track, z]
      | a :: r, h =>
        exfalso
        rcases h with h | h
        · simp only [List.length_cons] at h
          omega
        · simp at h
    · rw [Decode_format gz m0 c0 c1 c2 c3 f r hf]
      simp

/-- Once the attribute byte is read, the receiver holds its low three bits as
`Codec`, whatever `Decode` returns. -/
theorem Decode_codec (gz : GzipLib) (m0 : Message) (c0 c1 c2 c3 a : Byte) (r : List Byte) :
    (Message.Decode realDecoder gz m0
      (newDecoder (c0 :: c1 :: c2 :: c3 :: 0 :: a :: r))).1.Codec = ((a.val % 8 : Nat) : Int) := by
  have z : toInt8 (0 : Byte) = message_format := rfl
  simp only [Message.Decode, realDecoder, newDecoder, decPush, decGetInt8, track,
    List.map_nil, List.map_cons, List.nil_append, List.cons_append, z, ne_eq,
    not_true_eq_false, if_false]
  rcases hkey : decGetBytes { rest := r, regions := [(fromBE32 c0 c1 c2 c3, [0, a])] }
    with ⟨s1, k, _ | e⟩
  · simp only
    rcases hval : decGetBytes s1 with ⟨s2, w, _ | e⟩
    · simp only
      rw [(decodeSwitch_rcv _ gz _ s2).1, land_toInt8]
    · simp only
      exact land_toInt8 a
  · simp only
    exact land_toInt8 a

/-- Once the key field is read, the receiver holds the key, whatever `Decode`
returns. -/
theorem Decode_key (gz : GzipLib) (m0 : Message) (c0 c1 c2 c3 a : Byte)
    (k : Option (List Byte)) (t : List Byte) (hk : blen k ≤ maxInt32) :
    (Message.Decode realDecoder gz m0
      (newDecoder (c0 :: c1 :: c2 :: c3 :: 0 :: a :: (field k ++ t)))).1.Key = k := by
  have z : toInt8 (0 : Byte) = message_format := rfl
  simp only [Message.Decode, realDecoder, newDecoder, decPush, decGetInt8, track,
    List.map_nil, List.map_cons, List.nil_append, List.cons_append, z, ne_eq,
    not_true_eq_false, if_false]
  rw [decGetBytes_field k _ _ hk]
  simp only
  rcases hval : decGetBytes
      { rest := t, regions := track [(fromBE32 c0 c1 c2 c3, [0, a])] (field k) }
    with ⟨s2, w, _ | e⟩
  · simp only
    rw [(decodeSwitch_rcv _ gz _ s2).2.1]
  · simp only

/-- C16 (amended): the receiver after a failed decode.  When `Decode` fails
before it stores the attribute byte (input shorter than six bytes, or a format
byte other than 0) the receiver is what it was before the call.  On every
other input the receiver's `Codec` is the low three bits of the attribute
byte when `Decode` returns, and its `Key` is the key read if the key field is
readable, whether `Decode` returns nil or a later error (truncated field,
unknown codec, gzip failure, checksum mismatch). -/
theorem C16_receiver_after_error (gz : GzipLib) (m0 : Message) (input : List Byte) :
    ((input.length < 6 ∨ input[4]? ≠ some 0) →
      (Message.Decode realDecoder gz m0 (newDecoder input)).2.2 ≠ none ∧
        (Message.Decode realDecoder gz m0 (newDecoder input)).1 = m0) ∧
    (∀ (c0 c1 c2 c3 a : Byte) (r : List Byte), input = c0 :: c1 :: c2 :: c3 :: 0 :: a :: r →
      (Message.Decode realDecoder gz m0 (newDecoder input)).1.Codec = ((a.val % 8 : Nat) : Int) ∧
      ∀ (k : Option (List Byte)) (t : List Byte), r = field k ++ t → blen k ≤ maxInt32 →
        (Message.Decode realDecoder gz m0 (newDecoder input)).1.Key = k) := by
  refine ⟨Decode_early_error gz m0 input, ?_⟩
  intro c0 c1 c2 c3 a r hin
  subst hin
  refine ⟨Decode_codec gz m0 c0 c1 c2 c3 a r, ?_⟩
  intro k t hr hk
  subst hr
  exact Decode_key gz m0 c0 c1 c2 c3 a k t hk

/-- Witness of C16 (amended): a three-byte input, and a frame with codec bits
3 and the key `[7]` under a wrong checksum. -/
theorem C16_receiver_after_error_witness :
    ((([1, 2, 3] : List Byte).length < 6 ∨ ([1, 2, 3] : List Byte)[4]? ≠ some 0) ∧
      (Message.Decode realDecoder toyGzip
        { Codec := 1, Key := some [9], Value := some [8] } (newDecoder [1, 2, 3])).2.2 ≠ none ∧
      (Message.Decode realDecoder toyGzip
        { Codec := 1, Key := some [9], Value := some [8] } (newDecoder [1, 2, 3])).1
        = { Codec := 1, Key := some [9], Value := some [8] }) ∧
    (blen (some [7]) ≤ maxInt32 ∧
      (Message.Decode realDecoder toyGzip { Codec := 1, Key := some [9], Value := some [8] }
        (newDecoder (0 :: 0 :: 0 :: 0 :: 0 :: 3 :: (field (some [7]) ++ [])))).1.Codec
        = (((3 : Byte).val % 8 : Nat) : Int) ∧
      (Message.Decode realDecoder toyGzip { Codec := 1, Key := some [9], Value := some [8] }
        (newDecoder (0 :: 0 :: 0 :: 0 :: 0 :: 3 :: (field (some [7]) ++ [])))).1.Key
        = some [7]) :=
  ⟨⟨Or.inl (by decide),
      (C16_receiver_after_error toyGzip { Codec := 1, Key := some [9], Value := some [8] }
        [1, 2, 3]).1 (Or.inl (by decide))⟩,
    by decide,
    ((C16_receiver_after_error toyGzip { Codec := 1, Key := some [9], Value := some [8] }
      (0 :: 0 :: 0 :: 0 :: 0 :: 3 :: (field (some [7]) ++ []))).2 0 0 0 0 3 _ rfl).1,
    ((C16_receiver_after_error toyGzip { Codec := 1, Key := some [9], Value := some [8] }
      (0 :: 0 :: 0 :: 0 :: 0 :: 3 :: (field (some [7]) ++ []))).2 0 0 0 0 3 _ rfl).2
      (some [7]) [] rfl (by decide)⟩

/-- C16 as stated fails.  With the receiver `{Codec 1, Key [9], Value [8]}`:
a well-formed frame under a wrong checksum makes `Decode` return
`ChecksumMismatch` with the receiver overwritten by the fields of that frame;
a six-byte input with attribute byte 5 makes `Decode` return `TruncatedInput`
with `Codec = 5` and `Key = nil` in the receiver; and a frame with codec bits
3 makes `Decode` return `DecodingError` with all three fields overwritten. -/
theorem C16_counterexample :
    Message.Decode realDecoder toyGzip { Codec := 1, Key := some [9], Value := some [8] }
        (newDecoder [0, 0, 0, 0, 0, 0, 0, 0, 0, 1, 7, 0, 0, 0, 1, 1])
      = ({ Codec := 0, Key := some [7], Value := some [1] }, { rest := [], regions := [] },
          some Error.ChecksumMismatch) ∧
    Message.Decode realDecoder toyGzip { Codec := 1, Key := some [9], Value := some [8] }
        (newDecoder [0, 0, 0, 0, 0, 5])
      = ({ Codec := 5, Key := none, Value := some [8] },
          { rest := [], regions := [(0, [0, 5])] }, some Error.TruncatedInput) ∧
    Message.Decode realDecoder toyGzip { Codec := 1, Key := some [9], Value := some [8] }
        (newDecoder [0, 0, 0, 0, 0, 3, 0, 0, 0, 1, 7, 255, 255, 255, 255])
      = ({ Codec := 3, Key := some [7], Value := none },
          { rest := [], regions := [(0, [0, 3, 0, 0, 0, 1, 7, 255, 255, 255, 255])] },
          some Error.DecodingError) := by
  set_option maxRecDepth 100000 in decide

/-! ## One message, one representation -/

/-- C17: re-encoding is canonical.  If `Decode` returns nil on an input `b`,
has read all of `b`, and the attribute byte of `b` (its sixth byte) is `0x00`,
then `Encode` of the decoded record, on an encoder with room for `len(b)`
bytes, returns nil and writes exactly `b`. -/
theorem C17_reencode_canonical (gz : GzipLib) (m0 : Message) (b : List Byte) (s : EncoderState)
    (hok : (Message.Decode realDecoder gz m0 (newDecoder b)).2.2 = none)
    (hall : (Message.Decode realDecoder gz m0 (newDecoder b)).2.1.rest = [])
    (hattr : b[5]? = some 0) (hroom : s.buf.length + b.length ≤ s.cap) :
    (Message.Encode realEncoder gz (Message.Decode realDecoder gz m0 (newDecoder b)).1 s).2
        = none ∧
      written s (Message.Encode realEncoder gz
        (Message.Decode realDecoder gz m0 (newDecoder b)).1 s).1 = b := by
  obtain ⟨c0, c1, c2, c3, a, k, w, t, hin, hk, hw⟩ := Decode_ok_shape gz m0 b hok
  subst hin
  have ha : a = 0 := by simpa using hattr
  subst ha
  have hl : Int.land (toInt8 (0 : Byte)) 0x07 = COMPRESSION_NONE := by decide
  rw [Decode_fields gz m0 c0 c1 c2 c3 0 k w t hk hw, hl] at hok hall ⊢
  have hsw : decodeSwitch realDecoder gz { Codec := COMPRESSION_NONE, Key := k, Value := w }
      { rest := t, regions := [(fromBE32 c0 c1 c2 c3, 0 :: 0 :: (field k ++ field w))] }
      = ({ Codec := COMPRESSION_NONE, Key := k, Value := w }, { rest := t, regions := [] },
          if crc32 (0 :: 0 :: (field k ++ field w)) = fromBE32 c0 c1 c2 c3 then none
          else some Error.ChecksumMismatch) := by
    simp [decodeSwitch, decodeFinish_real]
  rw [hsw] at hok hall ⊢
  simp only at hok hall ⊢
  subst hall
  have hcrc : crc32 (0 :: 0 :: (field k ++ field w)) = fromBE32 c0 c1 c2 c3 := by
    by_contra hne
    rw [if_neg hne] at hok
    exact absurd hok (by simp)
  have hb : encodeBody gz { Codec := COMPRESSION_NONE, Key := k, Value := w } = w := by
    simp [encodeBody]
  have hlen : (c0 :: c1 :: c2 :: c3 :: 0 :: 0 :: (field k ++ (field w ++ []))).length
      = 14 + blen k + blen w := by
    simp only [List.length_cons, List.length_append, field_length, List.length_nil]
    omega
  have hE : (Message.Encode realEncoder gz
      { Codec := COMPRESSION_NONE, Key := k, Value := w } s).2 = none := by
    rw [Encode_ok_iff, hb]
    refine ⟨hk, hw, ?_⟩
    show s.buf.length + 14 + blen k + blen w ≤ s.cap
    omega
  refine ⟨hE, ?_⟩
  rw [written_ok gz _ s hE, frameBody_eq, hb]
  have ha : attrByte COMPRESSION_NONE = 0 := by decide
  rw [ha, hcrc, be32_fromBE32]
  simp

/-- Witness of C17: the 14 bytes of the nil/nil message. -/
theorem C17_reencode_canonical_witness :
    ((Message.Decode realDecoder toyGzip emptyMessage (newDecoder
        [167, 236, 104, 3, 0, 0, 255, 255, 255, 255, 255, 255, 255, 255])).2.2 = none ∧
      (Message.Decode realDecoder toyGzip emptyMessage (newDecoder
        [167, 236, 104, 3, 0, 0, 255, 255, 255, 255, 255, 255, 255, 255])).2.1.rest = [] ∧
      ([167, 236, 104, 3, 0, 0, 255, 255, 255, 255, 255, 255, 255, 255] : List Byte)[5]?
        = some 0 ∧
      (newEncoder 14).buf.length
          + ([167, 236, 104, 3, 0, 0, 255, 255, 255, 255, 255, 255, 255, 255] : List Byte).length
        ≤ (newEncoder 14).cap) ∧
    ((Message.Encode realEncoder toyGzip (Message.Decode realDecoder toyGzip emptyMessage
        (newDecoder [167, 236, 104, 3, 0, 0, 255, 255, 255, 255, 255, 255, 255, 255])).1
        (newEncoder 14)).2 = none ∧
      written (newEncoder 14) (Message.Encode realEncoder toyGzip
        (Message.Decode realDecoder toyGzip emptyMessage
          (newDecoder [167, 236, 104, 3, 0, 0, 255, 255, 255, 255, 255, 255, 255, 255])).1
        (newEncoder 14)).1
        = [167, 236, 104, 3, 0, 0, 255, 255, 255, 255, 255, 255, 255, 255]) :=
  ⟨⟨by set_option maxRecDepth 100000 in decide, by set_option maxRecDepth 100000 in decide,
      by decide, by decide⟩,
    C17_reencode_canonical toyGzip emptyMessage
      [167, 236, 104, 3, 0, 0, 255, 255, 255, 255, 255, 255, 255, 255] (newEncoder 14)
      (by set_option maxRecDepth 100000 in decide)
      (by set_option maxRecDepth 100000 in decide) (by decide) (by decide)⟩

/-- C18: `Decode` consumes exactly one message.  For every record with codec
NONE that `Encode` has written and every byte sequence `t`, `Decode` of the
written bytes followed by `t` returns nil with the same record and the same
error as on the written bytes alone, leaves the decoder at the start of `t`
with no region open, and the written bytes are `14 + len(Key) + len(Value)`
many (nil counted as 0); `t` plays no part in the checksum comparison. -/
theorem C18_decode_one_message (gz : GzipLib) (k v : Option (List Byte)) (s : EncoderState)
    (m0 : Message) (t : List Byte) (hk : blen k ≤ maxInt32) (hv : blen v ≤ maxInt32)
    (hroom : s.buf.length + 14 + blen k + blen v ≤ s.cap) :
    Message.Decode realDecoder gz m0 (newDecoder (written s
          (Message.Encode realEncoder gz { Codec := COMPRESSION_NONE, Key := k, Value := v }
            s).1 ++ t))
        = ({ Codec := COMPRESSION_NONE, Key := k, Value := v },
            { rest := t, regions := [] }, none) ∧
      Message.Decode realDecoder gz m0 (newDecoder (written s
          (Message.Encode realEncoder gz { Codec := COMPRESSION_NONE, Key := k, Value := v }
            s).1))
        = ({ Codec := COMPRESSION_NONE, Key := k, Value := v },
            { rest := [], regions := [] }, none) ∧
      (written s (Message.Encode realEncoder gz
          { Codec := COMPRESSION_NONE, Key := k, Value := v } s).1).length
        = 14 + blen k + blen v := by
  have hb : encodeBody gz { Codec := COMPRESSION_NONE, Key := k, Value := v } = v := by
    simp [encodeBody]
  have hok : (Message.Encode realEncoder gz
      { Codec := COMPRESSION_NONE, Key := k, Value := v } s).2 = none := by
    rw [Encode_ok_iff, hb]
    exact ⟨hk, hv, hroom⟩
  have ha : attrByte COMPRESSION_NONE = 0 := by decide
  have hl : Int.land (toInt8 (0 : Byte)) 0x07 = COMPRESSION_NONE := by decide
  have hw := written_ok gz _ s hok
  rw [frameBody_eq, hb, ha] at hw
  have main : ∀ u : List Byte,
      Message.Decode realDecoder gz m0 (newDecoder
        ((be32 (crc32 (0 :: 0 :: (field k ++ field v))) ++ 0 :: 0 :: (field k ++ field v)) ++ u))
        = ({ Codec := COMPRESSION_NONE, Key := k, Value := v },
            { rest := u, regions := [] }, none) := by
    intro u
    have h := Decode_frame gz m0 _ (crc32_lt (0 :: 0 :: (field k ++ field v))) 0 k v u hk hv
    have e : (be32 (crc32 (0 :: 0 :: (field k ++ field v))) ++ 0 :: 0 :: (field k ++ field v))
        ++ u = be32 (crc32 (0 :: 0 :: (field k ++ field v)))
          ++ (0 :: 0 :: (field k ++ (field v ++ u))) := by
      simp [List.append_assoc]
    rw [e, h, hl]
    simp [decodeSwitch, decodeFinish_real]
  rw [hw]
  refine ⟨main t, ?_, ?_⟩
  · have := main []
    simpa using this
  · simp only [List.length_append, be32_length, List.length_cons, field_length]
    omega

/-- Witness of C18: key `[7]`, empty value, followed by the two bytes
`[5, 6]`. -/
theorem C18_decode_one_message_witness :
    (blen (some [7]) ≤ maxInt32 ∧ blen (some []) ≤ maxInt32 ∧
      (newEncoder 15).buf.length + 14 + blen (some [7]) + blen (some []) ≤ (newEncoder 15).cap) ∧
    (Message.Decode realDecoder toyGzip emptyMessage (newDecoder (written (newEncoder 15)
          (Message.Encode realEncoder toyGzip
            { Codec := COMPRESSION_NONE, Key := some [7], Value := some [] }
            (newEncoder 15)).1 ++ [5, 6]))
        = ({ Codec := COMPRESSION_NONE, Key := some [7], Value := some [] },
            { rest := [5, 6], regions := [] }, none) ∧
      Message.Decode realDecoder toyGzip emptyMessage (newDecoder (written (newEncoder 15)
          (Message.Encode realEncoder toyGzip
            { Codec := COMPRESSION_NONE, Key := some [7], Value := some [] }
            (newEncoder 15)).1))
        = ({ Codec := COMPRESSION_NONE, Key := some [7], Value := some [] },
            { rest := [], regions := [] }, none) ∧
      (written (newEncoder 15) (Message.Encode realEncoder toyGzip
          { Codec := COMPRESSION_NONE, Key := some [7], Value := some [] }
          (newEncoder 15)).1).length
        = 14 + blen (some [7]) + blen (some [])) :=
  ⟨⟨by decide, by decide, by decide⟩,
    C18_decode_one_message toyGzip (some [7]) (some []) (newEncoder 15) emptyMessage [5, 6]
      (by decide) (by decide) (by decide)⟩

/-! ## Checksum sensitivity -/

theorem flipByte_mod8 (a : Byte) (j : Nat) (h3 : 3 ≤ j) (h8 : j < 8) :
    (flipByte a j).val % 8 = a.val % 8 := by
  have : j = 3 ∨ j = 4 ∨ j = 5 ∨ j = 6 ∨ j = 7 := by omega
  revert a
  rcases this with h | h | h | h | h <;> subst h <;> decide!

/-- An error of `GetBytes` is `DecodingError` or `TruncatedInput`. -/
theorem decGetBytes_err (s s' : DecoderState) (x : Option (List Byte)) (e : Error)
    (h : decGetBytes s = (s', x, some e)) :
    e = Error.DecodingError ∨ e = Error.TruncatedInput := by
  unfold decGetBytes at h
  split at h
  · simp only at h
    split at h
    · simp at h
    · split at h
      · simp only [Prod.mk.injEq, Option.some.injEq] at h
        exact Or.inl h.2.2.symm
      · split at h
        · simp only [Prod.mk.injEq, Option.some.injEq] at h
          exact Or.inr h.2.2.symm
        · simp at h
  · simp only [Prod.mk.injEq, Option.some.injEq] at h
    exact Or.inr h.2.2.symm

/-- A `switch m.Codec` that ends in `ChecksumMismatch`, with a gzip library
that reports its own errors, got through to the region close and found a
CRC-32 different from the stored one. -/
theorem decodeSwitch_mismatch_inv (gz : GzipLib) (a : Byte) (k w : Option (List Byte))
    (t body : List Byte) (c : Nat) (hgz : gzipErrorsOwn gz)
    (h : (decodeSwitch realDecoder gz
        { Codec := Int.land (toInt8 a) 0x07, Key := k, Value := w }
        { rest := t, regions := [(c, body)] }).2.2 = some Error.ChecksumMismatch) :
    passesSwitch gz a w ∧ c ≠ crc32 body := by
  have fin : ∀ m' : Message,
      (decodeFinish realDecoder m' { rest := t, regions := [(c, body)] }).2.2
        = some Error.ChecksumMismatch → c ≠ crc32 body := by
    intro m' h' hc
    rw [decodeFinish_real, if_pos hc.symm] at h'
    simp at h'
  rw [land_toInt8] at h
  by_cases h0 : a.val % 8 = 0
  · have e0 : ((a.val % 8 : Nat) : Int) = COMPRESSION_NONE := by
      unfold COMPRESSION_NONE; omega
    simp only [decodeSwitch, if_pos e0] at h
    exact ⟨Or.inl h0, fin _ h⟩
  · have e0 : ¬ (((a.val % 8 : Nat) : Int) = COMPRESSION_NONE) := by
      unfold COMPRESSION_NONE; omega
    by_cases h1 : a.val % 8 = 1
    · have e1 : ((a.val % 8 : Nat) : Int) = COMPRESSION_GZIP := by
        unfold COMPRESSION_GZIP; omega
      cases w with
      | none =>
        simp only [decodeSwitch, if_neg e0, if_pos e1] at h
        simp at h
      | some x =>
        cases hr : gz.NewReader x with
        | error e =>
          simp only [decodeSwitch, if_neg e0, if_pos e1, hr] at h
          simp only [Option.some.injEq] at h
          rw [h] at hr
          exact absurd hr (hgz.1 x)
        | ok rd =>
          rcases hra : gz.ReadAll rd with ⟨out, _ | e⟩
          · simp only [decodeSwitch, if_neg e0, if_pos e1, hr, hra] at h
            exact ⟨Or.inr (Or.inr ⟨h1, x, rd, out, rfl, hr, hra⟩), fin _ h⟩
          · simp only [decodeSwitch, if_neg e0, if_pos e1, hr, hra] at h
            have := hgz.2 rd
            rw [hra] at this
            exact absurd h this
    · have e1 : ¬ (((a.val % 8 : Nat) : Int) = COMPRESSION_GZIP) := by
        unfold COMPRESSION_GZIP; omega
      by_cases h2 : a.val % 8 = 2
      · have e2 : ((a.val % 8 : Nat) : Int) = COMPRESSION_SNAPPY := by
          unfold COMPRESSION_SNAPPY; omega
        simp only [decodeSwitch, if_neg e0, if_neg e1, if_pos e2] at h
        exact ⟨Or.inr (Or.inl h2), fin _ h⟩
      · have e2 : ¬ (((a.val % 8 : Nat) : Int) = COMPRESSION_SNAPPY) := by
          unfold COMPRESSION_SNAPPY; omega
        simp only [decodeSwitch, if_neg e0, if_neg e1, if_neg e2] at h
        simp at h

/-- A `Decode` that returns `ChecksumMismatch`, with a gzip library that
reports its own errors, has read four checksum bytes and then a frame with
format byte 0 and readable fields that gets through the codec switch and
whose CRC-32 differs from the value of those four bytes. -/
theorem Decode_mismatch_shape (gz : GzipLib) (m : Message) (input : List Byte)
    (hgz : gzipErrorsOwn gz)
    (h : (Message.Decode realDecoder gz m (newDecoder input)).2.2
      = some Error.ChecksumMismatch) :
    ∃ (c0 c1 c2 c3 a : Byte) (k w : Option (List Byte)) (t : List Byte),
      input = c0 :: c1 :: c2 :: c3 :: 0 :: a :: (field k ++ (field w ++ t)) ∧
      blen k ≤ maxInt32 ∧ blen w ≤ maxInt32 ∧ passesSwitch gz a w ∧
      fromBE32 c0 c1 c2 c3 ≠ crc32 (0 :: a :: (field k ++ field w)) := by
  have z : toInt8 (0 : Byte) = message_format := rfl
  match input, h with
  | [], h => simp [Message.Decode, realDecoder, newDecoder, decPush] at h
  | [_], h => simp [Message.Decode, realDecoder, newDecoder, decPush] at h
  | [_, _], h => simp [Message.Decode, realDecoder, newDecoder, decPush] at h
  | [_, _, _], h => simp [Message.Decode, realDecoder, newDecoder, decPush] at h
  | [_, _, _, _], h =>
    simp [Message.Decode, realDecoder, newDecoder, decPush, decGetInt8] at h
  | c0 :: c1 :: c2 :: c3 :: f :: r, h =>
    by_cases hf : f = 0
    · subst hf
      match r, h with
      | [], h =>
        simp [Message.Decode, realDecoder, newDecoder, decPush, decGetInt8, track, z] at h
      | a :: r, h =>
        rcases hkey : decGetBytes { rest := r, regions := [(fromBE32 c0 c1 c2 c3, [0, a])] }
          with ⟨s1, k, _ | e⟩
        · rcases hval : decGetBytes s1 with ⟨s2, w, _ | e⟩
          · obtain ⟨hr1, -, hk⟩ := decGetBytes_ok _ _ _ hkey
            obtain ⟨hr2, -, hw⟩ := decGetBytes_ok _ _ _ hval
            simp only at hr1
            have hin : c0 :: c1 :: c2 :: c3 :: 0 :: a :: r
                = c0 :: c1 :: c2 :: c3 :: 0 :: a :: (field k ++ (field w ++ s2.rest)) := by
              rw [hr1, hr2]
            rw [hin, Decode_fields gz m c0 c1 c2 c3 a k w s2.rest hk hw] at h
            obtain ⟨hp, hne⟩ := decodeSwitch_mismatch_inv gz a k w _ _ _ hgz h
            exact ⟨c0, c1, c2, c3, a, k, w, s2.rest, hin, hk, hw, hp, hne⟩
          · exfalso
            simp only [Message.Decode, realDecoder, newDecoder, decPush, decGetInt8, track,
              List.map_nil, List.map_cons, List.nil_append, List.cons_append, z, ne_eq,
              not_true_eq_false, if_false, hkey, hval] at h
            simp only [Option.some.injEq] at h
            rcases decGetBytes_err _ _ _ _ hval with h' | h' <;> rw [h'] at h <;> simp at h
        · exfalso
          simp only [Message.Decode, realDecoder, newDecoder, decPush, decGetInt8, track,
            List.map_nil, List.map_cons, List.nil_append, List.cons_append, z, ne_eq,
            not_true_eq_false, if_false, hkey] at h
          simp only [Option.some.injEq] at h
          rcases decGetBytes_err _ _ _ _ hkey with h' | h' <;> rw [h'] at h <;> simp at h
    · rw [Decode_format gz m c0 c1 c2 c3 f r hf] at h
      simp at h

/-- A flipped bit in the attribute byte, a key byte or a value byte of a frame
gives a frame again, with fields of the same lengths and the bit flipped in
the byte it lies in (positions counted in the message, four checksum bytes
included). -/
theorem flipAt_frame (a : Byte) (k w : Option (List Byte)) (i : Nat) (hlo : 32 ≤ i)
    (hn : i / 8 - 4 < (0 :: a :: (field k ++ field w)).length)
    (hpay : i / 8 = 5 ∨ (10 ≤ i / 8 ∧ i / 8 < 10 + blen k) ∨ 14 + blen k ≤ i / 8) :
    ∃ (a' : Byte) (k' w' : Option (List Byte)),
      flipAt (0 :: a :: (field k ++ field w)) (i / 8 - 4) (i % 8)
        = 0 :: a' :: (field k' ++ field w') ∧
      a' = (if i / 8 = 5 then flipByte a (i % 8) else a) ∧ blen k' = blen k ∧
      blen w' = blen w ∧
      w' = flipWireAt w (blen k) i := by
  have hj : i % 8 < 8 := Nat.mod_lt _ (by decide)
  have hbl : (0 :: a :: (field k ++ field w)).length = 10 + blen k + blen w := by
    simp only [List.length_cons, List.length_append, field_length]
    omega
  rcases hpay with h5 | ⟨h10, hkey⟩ | hval
  · have e : i / 8 - 4 = 1 := by omega
    have hno : ¬ (14 + blen k ≤ i / 8) := by omega
    refine ⟨flipByte a (i % 8), k, w, ?_, by rw [if_pos h5], rfl, rfl,
      by simp only [flipWireAt, if_neg hno]⟩
    rw [e]
    rfl
  · have hno : ¬ (14 + blen k ≤ i / 8) := by omega
    cases k with
    | none =>
      simp only [blen_none] at hkey
      omega
    | some K =>
      simp only [blen_some] at hkey hno
      have hm : i / 8 - 10 < K.length := by omega
      have h5 : ¬ (i / 8 = 5) := by omega
      have e : i / 8 - 4 = ([0, a] : List Byte).length + (4 + (i / 8 - 10)) := by
        simp only [List.length_cons, List.length_nil]
        omega
      refine ⟨a, some (flipAt K (i / 8 - 10) (i % 8)), w, ?_, by rw [if_neg h5], ?_, rfl, ?_⟩
      · rw [e]
        have := flipAt_append_right [0, a] (field (some K) ++ field w)
          (4 + (i / 8 - 10)) (i % 8)
        simp only [List.cons_append, List.nil_append] at this
        rw [this, flipAt_field K _ _ _ hm]
      · simp only [blen_some, flipAt_length]
      · simp only [flipWireAt, blen_some]
        rw [if_neg hno]
  · cases w with
    | none =>
      rw [hbl] at hn
      simp only [blen_none] at hn
      omega
    | some V =>
      rw [hbl] at hn
      simp only [blen_some] at hn
      have hm : i / 8 - 14 - blen k < V.length := by omega
      have h5 : ¬ (i / 8 = 5) := by omega
      have e : i / 8 - 4 = (0 :: a :: field k).length + (4 + (i / 8 - 14 - blen k)) := by
        simp only [List.length_cons, field_length]
        omega
      refine ⟨a, k, some (flipAt V (i / 8 - 14 - blen k) (i % 8)), ?_, by rw [if_neg h5], rfl,
        ?_, ?_⟩
      · rw [e]
        have := flipAt_append_right (0 :: a :: field k) (field (some V))
          (4 + (i / 8 - 14 - blen k)) (i % 8)
        simp only [List.cons_append] at this
        rw [this]
        have h2 := flipAt_field V [] (i / 8 - 14 - blen k) (i % 8) hm
        simp only [List.append_nil] at h2
        rw [h2]
      · simp only [blen_some, flipAt_length]
      · simp only [flipWireAt, if_pos hval]

/-- A frame behind the checksum of another frame with a different CRC-32: if
it has format byte 0, readable fields and gets through the codec switch,
`Decode` returns `ChecksumMismatch`, whatever follows the frame. -/
theorem Decode_other_frame (gz : GzipLib) (m0 : Message) (body : List Byte) (a : Byte)
    (k w : Option (List Byte)) (t : List Byte)
    (hk : blen k ≤ maxInt32) (hw : blen w ≤ maxInt32) (hp : passesSwitch gz a w)
    (hne : crc32 (0 :: a :: (field k ++ field w)) ≠ crc32 body) :
    (Message.Decode realDecoder gz m0
      (newDecoder (be32 (crc32 body) ++ (0 :: a :: (field k ++ (field w ++ t)))))).2.2
      = some Error.ChecksumMismatch := by
  rw [Decode_frame gz m0 _ (crc32_lt body) a k w t hk hw]
  exact decodeSwitch_mismatch gz a k w t _ _ hp (fun h => hne h.symm)

/-- C5 (amended): checksum sensitivity.  Take a record that `Encode` has
encoded and flip one bit of the framed region of the output (any bit from the
format byte through the last byte of the value field).  `Decode` of the
flipped output returns `ChecksumMismatch` whenever what follows the four
checksum bytes still starts with a frame that `Decode` reads through to the
region close (format byte 0, readable key and value fields, an attribute byte
and wire value that get through the codec switch) and whose CRC-32 differs
from that of the frame written; with a gzip library that reports its own
errors it returns `ChecksumMismatch` in no other case.  `Decode` never returns
nil having read the whole flipped output.  When the bit lies in the attribute
byte, a key byte or a value byte and the attribute byte and wire value, with
the bit flipped, get through the codec switch, `Decode` returns
`ChecksumMismatch`: so it does for every reserved attribute bit (3-7), key bit
and value bit of a record with codec NONE, and for every reserved attribute
bit and key bit of a record with codec GZIP whose compressed value the gzip
reader accepts. -/
theorem C5_flip_detected (gz : GzipLib) (r : Message) (s : EncoderState) (m0 : Message)
    (i : Nat) (hok : (Message.Encode realEncoder gz r s).2 = none) (hlo : 32 ≤ i)
    (hhi : i < 8 * (written s (Message.Encode realEncoder gz r s).1).length) :
    (∀ (a : Byte) (k w : Option (List Byte)) (t : List Byte),
      (flipBit (written s (Message.Encode realEncoder gz r s).1) i).drop 4
        = 0 :: a :: (field k ++ (field w ++ t)) →
      blen k ≤ maxInt32 → blen w ≤ maxInt32 → passesSwitch gz a w →
      crc32 (0 :: a :: (field k ++ field w))
        ≠ crc32 ((written s (Message.Encode realEncoder gz r s).1).drop 4) →
      (Message.Decode realDecoder gz m0 (newDecoder
        (flipBit (written s (Message.Encode realEncoder gz r s).1) i))).2.2
        = some Error.ChecksumMismatch) ∧
    (gzipErrorsOwn gz →
      (Message.Decode realDecoder gz m0 (newDecoder
        (flipBit (written s (Message.Encode realEncoder gz r s).1) i))).2.2
        = some Error.ChecksumMismatch →
      ∃ (a : Byte) (k w : Option (List Byte)) (t : List Byte),
        (flipBit (written s (Message.Encode realEncoder gz r s).1) i).drop 4
          = 0 :: a :: (field k ++ (field w ++ t)) ∧
        blen k ≤ maxInt32 ∧ blen w ≤ maxInt32 ∧ passesSwitch gz a w ∧
        crc32 (0 :: a :: (field k ++ field w))
          ≠ crc32 ((written s (Message.Encode realEncoder gz r s).1).drop 4)) ∧
    ((Message.Decode realDecoder gz m0 (newDecoder
        (flipBit (written s (Message.Encode realEncoder gz r s).1) i))).2.2 = none →
      (Message.Decode realDecoder gz m0 (newDecoder
        (flipBit (written s (Message.Encode realEncoder gz r s).1) i))).2.1.rest ≠ []) ∧
    (inFields r i → passesSwitch gz (flippedAttr r i) (flippedWire gz r i) →
      (Message.Decode realDecoder gz m0 (newDecoder
        (flipBit (written s (Message.Encode realEncoder gz r s).1) i))).2.2
        = some Error.ChecksumMismatch) ∧
    (r.Codec = COMPRESSION_NONE → inPayload r i →
      (Message.Decode realDecoder gz m0 (newDecoder
        (flipBit (written s (Message.Encode realEncoder gz r s).1) i))).2.2
        = some Error.ChecksumMismatch) ∧
    (r.Codec = COMPRESSION_GZIP →
      ∀ v : List Byte, r.Value = some v →
      (∃ rd out, gz.NewReader (gz.compress v) = .ok rd ∧ gz.ReadAll rd = (out, none)) →
      ((i / 8 = 5 ∧ 3 ≤ i % 8) ∨ (10 ≤ i / 8 ∧ i / 8 < 10 + blen r.Key)) →
      (Message.Decode realDecoder gz m0 (newDecoder
        (flipBit (written s (Message.Encode realEncoder gz r s).1) i))).2.2
        = some Error.ChecksumMismatch) := by
  obtain ⟨hk, hv, -⟩ := (Encode_ok_iff gz r s).1 hok
  rw [written_ok gz r s hok] at hhi ⊢
  have hlen : (be32 (crc32 (frameBody gz r)) ++ frameBody gz r).length
      = 4 + (frameBody gz r).length := by
    rw [List.length_append, be32_length]
  rw [hlen] at hhi
  have hj : i % 8 < 8 := Nat.mod_lt _ (by decide)
  have hn : i / 8 - 4 < (frameBody gz r).length := by omega
  rw [flipBit_framed _ _ i (be32_length _) hlo]
  have hd1 : ∀ l : List Byte, (be32 (crc32 (frameBody gz r)) ++ l).drop 4 = l := by
    intro l
    simp [be32]
  rw [hd1, hd1]
  have hfb := frameBody_eq gz r
  -- the frame read differs from the frame written: `ChecksumMismatch`
  have hG : ∀ (a : Byte) (k w : Option (List Byte)) (t : List Byte),
      flipAt (frameBody gz r) (i / 8 - 4) (i % 8) = 0 :: a :: (field k ++ (field w ++ t)) →
      blen k ≤ maxInt32 → blen w ≤ maxInt32 → passesSwitch gz a w →
      crc32 (0 :: a :: (field k ++ field w)) ≠ crc32 (frameBody gz r) →
      (Message.Decode realDecoder gz m0 (newDecoder
        (be32 (crc32 (frameBody gz r)) ++ flipAt (frameBody gz r) (i / 8 - 4) (i % 8)))).2.2
        = some Error.ChecksumMismatch := by
    intro a k w t hfl hk' hw' hp hne
    rw [hfl]
    exact Decode_other_frame gz m0 _ a k w t hk' hw' hp hne
  -- a flip in the attribute byte, a key byte or a value byte
  have hF : inFields r i → passesSwitch gz (flippedAttr r i) (flippedWire gz r i) →
      (Message.Decode realDecoder gz m0 (newDecoder
        (be32 (crc32 (frameBody gz r)) ++ flipAt (frameBody gz r) (i / 8 - 4) (i % 8)))).2.2
        = some Error.ChecksumMismatch := by
    intro hpos hp
    have hn' : i / 8 - 4 < (0 :: attrByte r.Codec
        :: (field r.Key ++ field (encodeBody gz r))).length := by
      rw [← hfb]; exact hn
    obtain ⟨a', k', w', hflip, ha', hk', hw', hwire⟩ :=
      flipAt_frame (attrByte r.Codec) r.Key (encodeBody gz r) i hlo hn' hpos
    rw [← hfb] at hflip
    have hp' : passesSwitch gz a' w' := by
      rw [ha', hwire]
      exact hp
    refine hG a' k' w' [] (by rw [hflip, List.append_nil]) (by rw [hk']; exact hk)
      (by rw [hw']; exact hv) hp' ?_
    rw [← hflip]
    exact crc32_flipAt _ _ _ hn hj
  refine ⟨hG, ?_, ?_, hF, ?_, ?_⟩
  · intro hgz hcm
    obtain ⟨c0, c1, c2, c3, a, k, w, t, hin, hk', hw', hp, hne⟩ :=
      Decode_mismatch_shape gz m0 _ hgz hcm
    simp only [be32, List.cons_append, List.nil_append, List.cons.injEq] at hin
    obtain ⟨e0, e1, e2, e3, ef⟩ := hin
    rw [← e0, ← e1, ← e2, ← e3, fromBE32_be32, Nat.mod_eq_of_lt (crc32_lt _)] at hne
    exact ⟨a, k, w, t, ef, hk', hw', hp, fun h => hne h.symm⟩
  · intro hnil hrest
    obtain ⟨c0, c1, c2, c3, a, k, w, hin, hcrc⟩ := Decode_ok_crc gz m0 _ hnil
    rw [hrest, List.append_nil] at hin
    simp only [be32, List.cons_append, List.nil_append, List.cons.injEq] at hin
    obtain ⟨e0, e1, e2, e3, ef⟩ := hin
    rw [← e0, ← e1, ← e2, ← e3, fromBE32_be32, Nat.mod_eq_of_lt (crc32_lt _), ← ef] at hcrc
    exact crc32_flipAt _ _ _ hn hj hcrc.symm
  · intro hc hpay
    have hpos : inFields r i := by
      rcases hpay with h | h | h
      · exact Or.inl h.1
      · exact Or.inr (Or.inl h)
      · exact Or.inr (Or.inr h)
    refine hF hpos (Or.inl ?_)
    have h0 : (attrByte r.Codec).val = 0 := by
      rw [hc]
      decide
    unfold flippedAttr
    by_cases h5 : i / 8 = 5
    · rw [if_pos h5]
      have h3 : 3 ≤ i % 8 := by
        rcases hpay with h | h | h <;> omega
      rw [flipByte_mod8 _ _ h3 hj, h0]
    · rw [if_neg h5, h0]
  · intro hc v hval hacc hposr
    have hpos : inFields r i := by
      rcases hposr with h | h
      · exact Or.inl h.1
      · exact Or.inr (Or.inl h)
    have hno : ¬ (14 + blen r.Key ≤ i / 8) := by
      rcases hposr with h | h <;> omega
    have n : ¬ (COMPRESSION_GZIP = COMPRESSION_NONE) := by decide
    have hb : encodeBody gz r = some (gz.compress v) := by
      simp only [encodeBody, hc, if_neg n, if_true, hval]
    have hfw : flippedWire gz r i = some (gz.compress v) := by
      simp only [flippedWire, flipWireAt, if_neg hno, hb]
    obtain ⟨rd, out, h1, h2⟩ := hacc
    have h1' : (attrByte r.Codec).val = 1 := by
      rw [hc]
      decide
    refine hF hpos (Or.inr (Or.inr ⟨?_, gz.compress v, rd, out, hfw, h1, h2⟩))
    unfold flippedAttr
    by_cases h5 : i / 8 = 5
    · rw [if_pos h5]
      have h3 : 3 ≤ i % 8 := by
        rcases hposr with h | h <;> omega
      rw [flipByte_mod8 _ _ h3 hj, h1']
    · rw [if_neg h5, h1']

/-- Witness of C5 (amended): bit 0 of the key byte (byte 10) of a gzip record
with the key `[7]`; bit 0 of the value byte (byte 14) of the record with codec
NONE, a nil key and the value `[1]`; bit 1 of the attribute byte of the
nil/nil record, which turns codec bits 0 into 2; and bit 2 of the last byte of
the key length of the record with key `[0, 0, 0, 0]` and value `[1, 2, 3, 4]`,
after which `Decode` reads a frame of ten bytes with another CRC-32. -/
theorem C5_flip_detected_witness :
    ((Message.Encode realEncoder toyGzip
        { Codec := COMPRESSION_GZIP, Key := some [7], Value := some [5] } (newEncoder 64)).2
        = none ∧
      32 ≤ 80 ∧
      80 < 8 * (written (newEncoder 64) (Message.Encode realEncoder toyGzip
        { Codec := COMPRESSION_GZIP, Key := some [7], Value := some [5] }
        (newEncoder 64)).1).length ∧
      (Message.Decode realDecoder toyGzip emptyMessage (newDecoder
        (flipBit (written (newEncoder 64) (Message.Encode realEncoder toyGzip
          { Codec := COMPRESSION_GZIP, Key := some [7], Value := some [5] }
          (newEncoder 64)).1) 80))).2.2 = some Error.ChecksumMismatch) ∧
    ((Message.Encode realEncoder toyGzip
        { Codec := COMPRESSION_NONE, Key := none, Value := some [1] } (newEncoder 64)).2 = none ∧
      32 ≤ 112 ∧
      112 < 8 * (written (newEncoder 64) (Message.Encode realEncoder toyGzip
        { Codec := COMPRESSION_NONE, Key := none, Value := some [1] }
        (newEncoder 64)).1).length ∧
      (Message.Decode realDecoder toyGzip emptyMessage (newDecoder
        (flipBit (written (newEncoder 64) (Message.Encode realEncoder toyGzip
          { Codec := COMPRESSION_NONE, Key := none, Value := some [1] }
          (newEncoder 64)).1) 112))).2.2 = some Error.ChecksumMismatch) ∧
    ((Message.Encode realEncoder toyGzip
        { Codec := COMPRESSION_NONE, Key := none, Value := none } (newEncoder 64)).2 = none ∧
      32 ≤ 41 ∧
      41 < 8 * (written (newEncoder 64) (Message.Encode realEncoder toyGzip
        { Codec := COMPRESSION_NONE, Key := none, Value := none }
        (newEncoder 64)).1).length ∧
      inFields { Codec := COMPRESSION_NONE, Key := none, Value := none } 41 ∧
      passesSwitch toyGzip
        (flippedAttr { Codec := COMPRESSION_NONE, Key := none, Value := none } 41)
        (flippedWire toyGzip { Codec := COMPRESSION_NONE, Key := none, Value := none } 41) ∧
      (Message.Decode realDecoder toyGzip emptyMessage (newDecoder
        (flipBit (written (newEncoder 64) (Message.Encode realEncoder toyGzip
          { Codec := COMPRESSION_NONE, Key := none, Value := none }
          (newEncoder 64)).1) 41))).2.2 = some Error.ChecksumMismatch) ∧
    ((Message.Encode realEncoder toyGzip
        { Codec := COMPRESSION_NONE, Key := some [0, 0, 0, 0], Value := some [1, 2, 3, 4] }
        (newEncoder 64)).2 = none ∧
      32 ≤ 74 ∧
      74 < 8 * (written (newEncoder 64) (Message.Encode realEncoder toyGzip
        { Codec := COMPRESSION_NONE, Key := some [0, 0, 0, 0], Value := some [1, 2, 3, 4] }
        (newEncoder 64)).1).length ∧
      (flipBit (written (newEncoder 64) (Message.Encode realEncoder toyGzip
        { Codec := COMPRESSION_NONE, Key := some [0, 0, 0, 0], Value := some [1, 2, 3, 4] }
        (newEncoder 64)).1) 74).drop 4
        = 0 :: 0 :: (field (some []) ++ (field (some []) ++ [0, 0, 0, 4, 1, 2, 3, 4])) ∧
      crc32 (0 :: 0 :: (field (some []) ++ field (some [])))
        ≠ crc32 ((written (newEncoder 64) (Message.Encode realEncoder toyGzip
          { Codec := COMPRESSION_NONE, Key := some [0, 0, 0, 0], Value := some [1, 2, 3, 4] }
          (newEncoder 64)).1).drop 4) ∧
      (Message.Decode realDecoder toyGzip emptyMessage (newDecoder
        (flipBit (written (newEncoder 64) (Message.Encode realEncoder toyGzip
          { Codec := COMPRESSION_NONE, Key := some [0, 0, 0, 0], Value := some [1, 2, 3, 4] }
          (newEncoder 64)).1) 74))).2.2 = some Error.ChecksumMismatch) :=
  ⟨⟨by set_option maxRecDepth 100000 in decide, by decide,
      by set_option maxRecDepth 100000 in decide,
      (C5_flip_detected toyGzip
        { Codec := COMPRESSION_GZIP, Key := some [7], Value := some [5] }
        (newEncoder 64) emptyMessage 80 (by set_option maxRecDepth 100000 in decide)
        (by decide) (by set_option maxRecDepth 100000 in decide)).2.2.2.2.2 rfl [5] rfl
        ⟨[5], [5], rfl, rfl⟩ (Or.inr ⟨by decide, by decide⟩)⟩,
    ⟨by set_option maxRecDepth 100000 in decide, by decide,
      by set_option maxRecDepth 100000 in decide,
      (C5_flip_detected toyGzip
        { Codec := COMPRESSION_NONE, Key := none, Value := some [1] }
        (newEncoder 64) emptyMessage 112 (by set_option maxRecDepth 100000 in decide)
        (by decide) (by set_option maxRecDepth 100000 in decide)).2.2.2.2.1 rfl
        (Or.inr (Or.inr (by decide)))⟩,
    ⟨by set_option maxRecDepth 100000 in decide, by decide,
      by set_option maxRecDepth 100000 in decide, Or.inl (by decide),
      Or.inr (Or.inl (by decide)),
      (C5_flip_detected toyGzip
        { Codec := COMPRESSION_NONE, Key := none, Value := none }
        (newEncoder 64) emptyMessage 41 (by set_option maxRecDepth 100000 in decide)
        (by decide) (by set_option maxRecDepth 100000 in decide)).2.2.2.1
        (Or.inl (by decide)) (Or.inr (Or.inl (by decide)))⟩,
    ⟨by set_option maxRecDepth 100000 in decide, by decide,
      by set_option maxRecDepth 100000 in decide,
      by set_option maxRecDepth 100000 in decide,
      by set_option maxRecDepth 100000 in decide,
      (C5_flip_detected toyGzip
        { Codec := COMPRESSION_NONE, Key := some [0, 0, 0, 0], Value := some [1, 2, 3, 4] }
        (newEncoder 64) emptyMessage 74 (by set_option maxRecDepth 100000 in decide)
        (by decide) (by set_option maxRecDepth 100000 in decide)).1 0 (some []) (some [])
        [0, 0, 0, 4, 1, 2, 3, 4] (by set_option maxRecDepth 100000 in decide) (by decide)
        (by decide) (Or.inl (by decide))
        (by set_option maxRecDepth 100000 in decide)⟩⟩

/-- C5 as stated fails on six encoded records.  Flipping bit 0 of the
format byte of the nil/nil record makes `Decode` return `DecodingError` (the
format guard runs before the checksum is compared).  Flipping bit 0 of the
last byte of the value length of the record with the empty value makes
`Decode` return `TruncatedInput`.  And flipping bit 2 of the last byte of the
key length of the record with key `[0, 0, 0, 0]` and value `[113, 77, 248, 58]`
makes `Decode` return nil: it reads an empty key and an empty value, and the
CRC-32 of the ten bytes read equals the stored checksum.  Flipping the
reserved bit 3 of the attribute byte of a record with codec 5, or of the gzip
record with a nil value, makes `Decode` return `DecodingError` (the `default`
branch and the nil check run before the checksum is compared).  And flipping
bit 0 of the first value byte of a gzip record, which breaks the magic number
of the stream, makes `Decode` return the error of the gzip reader. -/
theorem C5_counterexample :
    (Message.Encode realEncoder toyGzip
        { Codec := COMPRESSION_NONE, Key := none, Value := none } (newEncoder 14)
      = ({ buf := [167, 236, 104, 3, 0, 0, 255, 255, 255, 255, 255, 255, 255, 255],
           cap := 14, stack := [] }, none) ∧
      (Message.Decode realDecoder toyGzip emptyMessage (newDecoder (flipBit
        [167, 236, 104, 3, 0, 0, 255, 255, 255, 255, 255, 255, 255, 255] 32))).2.2
        = some Error.DecodingError) ∧
    (Message.Encode realEncoder toyGzip
        { Codec := COMPRESSION_NONE, Key := none, Value := some [] } (newEncoder 14)
      = ({ buf := [121, 87, 72, 224, 0, 0, 255, 255, 255, 255, 0, 0, 0, 0],
           cap := 14, stack := [] }, none) ∧
      (Message.Decode realDecoder toyGzip emptyMessage (newDecoder (flipBit
        [121, 87, 72, 224, 0, 0, 255, 255, 255, 255, 0, 0, 0, 0] 104))).2.2
        = some Error.TruncatedInput) ∧
    (Message.Encode realEncoder toyGzip
        { Codec := COMPRESSION_NONE, Key := some [0, 0, 0, 0], Value := some [113, 77, 248, 58] }
        (newEncoder 22)
      = ({ buf := [227, 138, 104, 118, 0, 0, 0, 0, 0, 4, 0, 0, 0, 0, 0, 0, 0, 4, 113, 77, 248,
             58],
           cap := 22, stack := [] }, none) ∧
      Message.Decode realDecoder toyGzip emptyMessage (newDecoder (flipBit
        [227, 138, 104, 118, 0, 0, 0, 0, 0, 4, 0, 0, 0, 0, 0, 0, 0, 4, 113, 77, 248, 58] 74))
        = ({ Codec := COMPRESSION_NONE, Key := some [], Value := some [] },
            { rest := [0, 0, 0, 4, 113, 77, 248, 58], regions := [] }, none)) ∧
    ((Message.Encode realEncoder toyGzip
        { Codec := 5, Key := none, Value := none } (newEncoder 14)).2 = none ∧
      (Message.Decode realDecoder toyGzip emptyMessage (newDecoder (flipBit
        (Message.Encode realEncoder toyGzip
          { Codec := 5, Key := none, Value := none } (newEncoder 14)).1.buf 43))).2.2
        = some Error.DecodingError) ∧
    ((Message.Encode realEncoder toyGzip
        { Codec := COMPRESSION_GZIP, Key := none, Value := none } (newEncoder 14)).2 = none ∧
      (Message.Decode realDecoder toyGzip emptyMessage (newDecoder (flipBit
        (Message.Encode realEncoder toyGzip
          { Codec := COMPRESSION_GZIP, Key := none, Value := none } (newEncoder 14)).1.buf
        43))).2.2 = some Error.DecodingError) ∧
    ((Message.Encode realEncoder toyGzip
        { Codec := COMPRESSION_GZIP, Key := none, Value := some [5] } (newEncoder 17)).2
        = none ∧
      (Message.Decode realDecoder toyGzip emptyMessage (newDecoder (flipBit
        (Message.Encode realEncoder toyGzip
          { Codec := COMPRESSION_GZIP, Key := none, Value := some [5] } (newEncoder 17)).1.buf
        112))).2.2 = some (Error.Gzip 0)) := by
  set_option maxRecDepth 100000 in decide

end Sarama
